import Mathlib

/-!
# Microchip 24XX1025 I2C EEPROM driver (`EEPROM_24XX1025.cpp`)

A shallow embedding of the driver in `src/Arduino/EEPROM/EEPROM_24XX1025/EEPROM_24XX1025.cpp`.

* C unsigned integers are natural numbers; every narrowing conversion and every
  32-bit wrap-around of the source is written out (`u8`, `u16`, `u32`, `sub32`).
  Integer widths are those of the AVR target the driver was tested on (16-bit `int`).
* The driver object (`devaddr`, `curpos`, `eeprom_pos`) and the global bus object
  `I2c16` are one record that every method takes and returns.
* The bus library and the chip are external to the driver.  They are modelled by
  `I2C`: a memory of 2 x 65536 units, the chip's internal address counter, a
  script of status codes for the coming read/write transactions, a script of
  answers for the coming acknowledge polls, and a log of every bus operation.
* A source buffer `byte *data` is a function from offsets to units, so that
  `data + k` is `shiftBuf data k`; a read returns the units it stored at the start
  of the destination buffer.
-/

namespace EEPROM

/-! ## Machine integers -/

/-- Conversion to `uint8_t`. -/
def u8 (x : Nat) : Nat := x % 256

/-- Conversion to `uint16_t`. -/
def u16 (x : Nat) : Nat := x % 65536

/-- Conversion to `uint32_t`. -/
def u32 (x : Nat) : Nat := x % 4294967296

/-- Subtraction of two `uint32_t` values, wrapping modulo 2^32. -/
def sub32 (a b : Nat) : Nat := (u32 a + 4294967296 - u32 b) % 4294967296

/-- Pointer arithmetic on a source buffer: the buffer `data + k`. -/
def shiftBuf (data : Nat → Nat) (k : Nat) : Nat → Nat := fun i => data (k + i)

/-- The first `n` units of a source buffer. -/
def bufTake (data : Nat → Nat) (n : Nat) : List Nat := (List.range n).map data

/-! ## The bus and the device -/

/-- One operation on the bus, with its outcome. -/
inductive BusOp where
  | read (dev addr count err : Nat)
  | readNext (dev count err : Nat)
  | write (dev addr : Nat) (data : List Nat) (err : Nat)
  | poll (dev : Nat) (ready : Bool)
  deriving DecidableEq, Repr

/-- The bus library together with the chip behind it. -/
structure I2C where
  /-- Device contents, by linear address `block * 65536 + relative address`. -/
  mem : Nat → Nat
  /-- The chip's internal address counter (block relative). -/
  ptr : Nat
  /-- Receive buffer of the library, filled by the buffer-less read calls. -/
  rx : List Nat
  /-- Status codes of the coming read/write transactions (0 is success);
  once the script is used up every transaction succeeds. -/
  errs : List Nat
  /-- Answers of the coming acknowledge polls; once used up the chip is ready. -/
  acks : List Bool
  /-- Every bus operation performed so far, oldest first. -/
  log : List BusOp

/-- The block a device selector addresses: bit 2 of the 7-bit selector. -/
def selBlock (dev : Nat) : Nat := (dev / 4) % 2

/-- The units held at `count` consecutive addresses of the selected block. -/
def I2C.load (b : I2C) (dev addr count : Nat) : List Nat :=
  (List.range count).map fun i => b.mem (selBlock dev * 65536 + addr + i)

/-- Device contents after storing `count` units of `data` from linear address `base` on. -/
def store (m : Nat → Nat) (base : Nat) (data : Nat → Nat) (count : Nat) : Nat → Nat :=
  fun a => if base ≤ a ∧ a < base + count then data (a - base) else m a

/-- Call `I2c16.read(address, registerAddress, numberBytes, dataBuffer)`: an addressed read
into the caller's buffer.  Returns the status code and the units delivered. -/
def I2C.read (b : I2C) (dev addr count : Nat) : Nat × List Nat × I2C :=
  let err := b.errs.headD 0
  if err = 0 then
    (0, b.load dev addr count,
      { b with ptr := (addr + count) % 65536, errs := b.errs.tail,
               log := b.log ++ [BusOp.read dev addr count 0] })
  else
    (err, [], { b with errs := b.errs.tail, log := b.log ++ [BusOp.read dev addr count err] })

/-- Call `I2c16.read(address, registerAddress, numberBytes)`: an addressed read into the
library's receive buffer. -/
def I2C.readBuffered (b : I2C) (dev addr count : Nat) : Nat × I2C :=
  let err := b.errs.headD 0
  if err = 0 then
    (0, { b with ptr := (addr + count) % 65536, rx := b.load dev addr count,
                 errs := b.errs.tail, log := b.log ++ [BusOp.read dev addr count 0] })
  else
    (err, { b with rx := [], errs := b.errs.tail,
                   log := b.log ++ [BusOp.read dev addr count err] })

/-- Call `I2c16.read(address, numberBytes)`: an address-less read, which continues at the
chip's internal address counter, into the library's receive buffer. -/
def I2C.readNext (b : I2C) (dev count : Nat) : Nat × I2C :=
  let err := b.errs.headD 0
  if err = 0 then
    (0, { b with ptr := (b.ptr + count) % 65536, rx := b.load dev b.ptr count,
                 errs := b.errs.tail, log := b.log ++ [BusOp.readNext dev count 0] })
  else
    (err, { b with rx := [], errs := b.errs.tail,
                   log := b.log ++ [BusOp.readNext dev count err] })

/-- Call `I2c16.receive()`: the next unit of the receive buffer, 0 if none is queued. -/
def I2C.receive (b : I2C) : Nat × I2C :=
  match b.rx with
  | [] => (0, b)
  | x :: rest => (x, { b with rx := rest })

/-- Call `I2c16.write(address, registerAddress, data, numberBytes)`: an addressed write.  An
accepted write stores its units at consecutive addresses of the selected block, which is what
the chip does with a write that stays inside one page; a failed one stores nothing. -/
def I2C.write (b : I2C) (dev addr : Nat) (data : Nat → Nat) (count : Nat) : Nat × I2C :=
  let err := b.errs.headD 0
  if err = 0 then
    (0, { b with mem := store b.mem (selBlock dev * 65536 + addr) data count,
                 ptr := (addr + count) % 65536, errs := b.errs.tail,
                 log := b.log ++ [BusOp.write dev addr (bufTake data count) 0] })
  else
    (err, { b with errs := b.errs.tail,
                   log := b.log ++ [BusOp.write dev addr (bufTake data count) err] })

/-- Call `I2c16.acknowledgePoll(address)`: one probe of the chip's readiness. -/
def I2C.acknowledgePoll (b : I2C) (dev : Nat) : Bool × I2C :=
  let ready := b.acks.headD true
  (ready, { b with acks := b.acks.tail, log := b.log ++ [BusOp.poll dev ready] })

/-- The loop `while (I2c16.acknowledgePoll(dev) == 0) delayMicroseconds(20);`, by recursion
on the script of poll answers that is still to come. -/
def pollLoop (dev : Nat) : List Bool → List BusOp → List Bool × List BusOp
  | [], log => ([], log ++ [BusOp.poll dev true])
  | true :: rest, log => (rest, log ++ [BusOp.poll dev true])
  | false :: rest, log => pollLoop dev rest (log ++ [BusOp.poll dev false])

/-- The bus after the acknowledge-polling loop. -/
def I2C.waitReady (b : I2C) (dev : Nat) : I2C :=
  let r := pollLoop dev b.acks b.log
  { b with acks := r.1, log := r.2 }

/-! ## The driver -/

/-- The driver object together with the bus object `I2c16` it talks to. -/
structure State where
  devaddr : Nat
  curpos : Nat
  eeprom_pos : Nat
  I2c16 : I2C

/-- Macro `BLOCKNUM(addr)`: `(( (addr) & (1UL << 16)) >> 16)`. -/
def BLOCKNUM (addr : Nat) : Nat := (addr &&& (1 <<< 16)) >>> 16

/-- Macro `TO_PAGEADDR(addr)`: `((uint16_t)(addr & 0xffff))`. -/
def TO_PAGEADDR (addr : Nat) : Nat := u16 (addr &&& 0xffff)

/-- Macro `TO_FULLADDR(block, page)`:
`(((uint32_t)(((uint32_t)block) << 16)) | (((uint32_t)(page))))`. -/
def TO_FULLADDR (block page : Nat) : Nat := u32 (u32 block <<< 16) ||| u32 page

/-- Method `readChunk(fulladdr, data, bytesToRead)`; returns the count, the units stored
into `data`, and the new state. -/
def readChunk (s : State) (fulladdr bytesToRead : Nat) : Nat × List Nat × State :=
  if bytesToRead = 0 ∨ fulladdr > 131071 then (0, [], s)
  else
    let bytesToRead :=
      if u32 (fulladdr + bytesToRead) > 131071 then u8 (sub32 131072 fulladdr) else bytesToRead
    if fulladdr < 65536 ∧ u32 (fulladdr + bytesToRead) > 65536 then
      let r1 := s.I2c16.read (u8 s.devaddr) (u16 fulladdr) (u8 (sub32 65536 fulladdr))
      if r1.1 ≠ 0 then
        (0, [], { s with eeprom_pos := 0xffffffff, I2c16 := r1.2.2 })
      else
        let r2 := r1.2.2.read (u8 (s.devaddr ||| (1 <<< 2))) 0
          (u8 (sub32 bytesToRead (sub32 65536 fulladdr)))
        if r2.1 ≠ 0 then
          (u8 (sub32 65536 fulladdr), r1.2.1,
            { s with eeprom_pos := 0xffffffff,
                     curpos := u32 (s.curpos + sub32 65536 fulladdr), I2c16 := r2.2.2 })
        else
          (bytesToRead, r1.2.1 ++ r2.2.1,
            { s with eeprom_pos := TO_FULLADDR 1 (sub32 bytesToRead (sub32 65536 fulladdr)),
                     curpos := u32 (s.curpos + bytesToRead), I2c16 := r2.2.2 })
    else
      let block := u8 (BLOCKNUM fulladdr)
      let r := s.I2c16.read (u8 (s.devaddr ||| (block <<< 2))) (TO_PAGEADDR fulladdr) bytesToRead
      if r.1 ≠ 0 then
        (0, [], { s with eeprom_pos := 0xffffffff, I2c16 := r.2.2 })
      else
        (bytesToRead, r.2.1,
          { s with eeprom_pos := u32 (s.eeprom_pos + bytesToRead),
                   curpos := u32 (s.curpos + bytesToRead), I2c16 := r.2.2 })

/-- Method `writeSinglePage(fulladdr, data, bytesToWrite)`. -/
def writeSinglePage (s : State) (fulladdr : Nat) (data : Nat → Nat) (bytesToWrite : Nat) :
    Nat × State :=
  if bytesToWrite = 0 ∨ bytesToWrite > 128 then (0, s)
  else
    let dev := u8 (s.devaddr ||| (BLOCKNUM fulladdr <<< 2))
    let w := s.I2c16.write dev (TO_PAGEADDR fulladdr) data bytesToWrite
    if w.1 ≠ 0 then
      (0, { s with eeprom_pos := 0xffffffff, I2c16 := w.2 })
    else
      (bytesToWrite,
        { s with eeprom_pos := u32 (s.eeprom_pos + bytesToWrite),
                 curpos := u32 (s.curpos + bytesToWrite),
                 I2c16 := w.2.waitReady dev })

/-- Method `writeChunk(fulladdr, data, bytesToWrite)`.  The products `(first_page + 1) * 128`
and `second_page * 128` are taken in the 16-bit `unsigned int` of the AVR target. -/
def writeChunk (s : State) (fulladdr : Nat) (data : Nat → Nat) (bytesToWrite : Nat) :
    Nat × State :=
  if bytesToWrite = 0 ∨ bytesToWrite > 128 ∨ fulladdr > 131071 then (0, s)
  else
    let pageaddr := TO_PAGEADDR fulladdr
    let first_block := u8 (BLOCKNUM fulladdr)
    let second_block := u8 (BLOCKNUM (sub32 (u32 (fulladdr + bytesToWrite)) 1))
    let first_page := u16 (pageaddr / 128)
    let second_page := u16 (TO_PAGEADDR (sub32 (u32 (pageaddr + bytesToWrite)) 1) / 128)
    if first_page = second_page ∧ first_block = second_block then
      writeSinglePage s fulladdr data bytesToWrite
    else
      let bytes_in_first_page := u8 (sub32 (u16 ((first_page + 1) * 128)) pageaddr)
      let bytes_in_second_page := u8 (bytesToWrite + 256 - bytes_in_first_page)
      let r1 := writeSinglePage s (TO_FULLADDR first_block pageaddr) data bytes_in_first_page
      if r1.1 ≠ bytes_in_first_page then r1
      else
        let r2 := writeSinglePage r1.2 (TO_FULLADDR second_block (u16 (second_page * 128)))
          (shiftBuf data bytes_in_first_page) bytes_in_second_page
        if r2.1 ≠ bytes_in_second_page then r2
        else (bytesToWrite, r2.2)

/-- Method `read(void)`: the unit at the current position. -/
def read (s : State) : Nat × State :=
  let dev := u8 (s.devaddr ||| (BLOCKNUM s.curpos <<< 2))
  let s1 : State :=
    if s.eeprom_pos ≠ s.curpos then
      { s with eeprom_pos := s.curpos,
               I2c16 := (s.I2c16.readBuffered dev (TO_PAGEADDR s.curpos) 1).2 }
    else
      { s with I2c16 := (s.I2c16.readNext dev 1).2 }
  let s2 : State := { s1 with curpos := u32 (s1.curpos + 1), eeprom_pos := u32 (s1.eeprom_pos + 1) }
  let s3 : State := if s2.eeprom_pos = 65536 then { s2 with eeprom_pos := 0 } else s2
  let s4 : State := if s3.curpos > 131071 then { s3 with curpos := 0, eeprom_pos := 0xffffffff } else s3
  let r := s4.I2c16.receive
  (r.1, { s4 with I2c16 := r.2 })

/-- The loop of `read(fulladdr, data, bytesToRead)`; `fuel` bounds the number of
iterations, each of which either returns or adds at least one unit to `bytesRead`. -/
def readLoop (fulladdr bytesToRead : Nat) :
    Nat → State → Nat → List Nat → Nat × List Nat × State
  | 0, s, bytesRead, out => (bytesRead, out, s)
  | fuel + 1, s, bytesRead, out =>
    if bytesRead < bytesToRead then
      let want := min 240 (sub32 bytesToRead bytesRead)
      let r := readChunk s (u32 (fulladdr + bytesRead)) (u8 want)
      if r.1 = want then readLoop fulladdr bytesToRead fuel r.2.2 (u32 (bytesRead + r.1)) (out ++ r.2.1)
      else (bytesRead, out ++ r.2.1, r.2.2)
    else (bytesRead, out, s)

/-- Method `read(fulladdr, data, bytesToRead)`. -/
def readAt (s : State) (fulladdr bytesToRead : Nat) : Nat × List Nat × State :=
  if bytesToRead = 0 then (0, [], s)
  else if bytesToRead ≤ 255 then readChunk s fulladdr (u8 bytesToRead)
  else
    let bytesToRead :=
      if u32 (fulladdr + bytesToRead) > 131071 then sub32 131072 fulladdr else bytesToRead
    readLoop fulladdr bytesToRead bytesToRead s 0 []

/-- Method `read(data, bytesToRead)`: a read at the current position. -/
def readDefault (s : State) (bytesToRead : Nat) : Nat × List Nat × State :=
  readAt s s.curpos bytesToRead

/-- Method `write(byte data)`. -/
def writeByte (s : State) (data : Nat) : Bool × State :=
  let block := u8 (BLOCKNUM s.curpos)
  let w := s.I2c16.write (u8 (s.devaddr ||| (block <<< 2))) (TO_PAGEADDR s.curpos) (fun _ => data) 1
  if w.1 ≠ 0 then
    (false, { s with eeprom_pos := 0xffffffff, I2c16 := w.2 })
  else
    let s1 : State := { s with curpos := u32 (s.curpos + 1), I2c16 := w.2 }
    let s2 : State := { s1 with eeprom_pos := s1.curpos }
    let s3 : State := if s2.curpos > 131071 then { s2 with curpos := 0, eeprom_pos := 0xffffffff } else s2
    (true, { s3 with I2c16 := s3.I2c16.waitReady (u8 (s.devaddr ||| (block <<< 2))) })

/-- The loop of `write(fulladdr, data, bytesToWrite)`; `fuel` bounds the number of
iterations, each of which either returns or adds at least one unit to `bytesWritten`. -/
def writeLoop (fulladdr : Nat) (data : Nat → Nat) (bytesToWrite : Nat) :
    Nat → State → Nat → Nat × State
  | 0, s, bytesWritten => (bytesWritten, s)
  | fuel + 1, s, bytesWritten =>
    if bytesWritten < bytesToWrite then
      let want := min 128 (sub32 bytesToWrite bytesWritten)
      let r := writeChunk s (u32 (fulladdr + bytesWritten)) (shiftBuf data bytesWritten) (u8 want)
      if r.1 = want then writeLoop fulladdr data bytesToWrite fuel r.2 (u32 (bytesWritten + r.1))
      else (bytesWritten, r.2)
    else (bytesWritten, s)

/-- Method `write(fulladdr, data, bytesToWrite)`. -/
def writeAt (s : State) (fulladdr : Nat) (data : Nat → Nat) (bytesToWrite : Nat) : Nat × State :=
  if bytesToWrite = 0 then (0, s)
  else if bytesToWrite ≤ 128 then writeChunk s fulladdr data (u8 bytesToWrite)
  else
    let bytesToWrite :=
      if u32 (fulladdr + bytesToWrite) > 131071 then sub32 131072 fulladdr else bytesToWrite
    writeLoop fulladdr data bytesToWrite bytesToWrite s 0

/-- Method `write(data, bytesToWrite)`: a write at the current position. -/
def writeDefault (s : State) (data : Nat → Nat) (bytesToWrite : Nat) : Nat × State :=
  writeAt s s.curpos data bytesToWrite

/-! ## Properties used by the theorems -/

/-- The script of coming transactions holds no failure. -/
def NoFail (b : I2C) : Prop := ∀ e ∈ b.errs, e = 0

instance (b : I2C) : Decidable (NoFail b) :=
  inferInstanceAs (Decidable (∀ e ∈ b.errs, e = 0))

/-- The base selector has its block bit clear, so that `devaddr | (block << 2)` selects `block`. -/
def BaseOk (s : State) : Prop := selBlock s.devaddr = 0

instance (s : State) : Decidable (BaseOk s) :=
  inferInstanceAs (Decidable (selBlock s.devaddr = 0))

/-- The units of a memory at `n` consecutive linear addresses from `a` on. -/
def memList (m : Nat → Nat) (a n : Nat) : List Nat := (List.range n).map fun i => m (a + i)

/-- What a failure-free write of `n` units at linear address `a` leaves behind. -/
def WriteOk (s s' : State) (a : Nat) (d : Nat → Nat) (n : Nat) : Prop :=
  s'.I2c16.mem = store s.I2c16.mem a d n ∧ NoFail s'.I2c16 ∧ s'.devaddr = s.devaddr

/-- What a failure-free read leaves behind. -/
def ReadOk (s s' : State) : Prop :=
  s'.I2c16.mem = s.I2c16.mem ∧ NoFail s'.I2c16 ∧ s'.devaddr = s.devaddr

/-- A bus on which nothing has happened yet, with the given device contents and scripts. -/
def freshBus (mem : Nat → Nat) (errs : List Nat) (acks : List Bool) : I2C :=
  { mem := mem, ptr := 0, rx := [], errs := errs, acks := acks, log := [] }

/-- Modelled from the spec: the constructor is in the header `EEPROM_24XX1025.h`, which is
not among the sources.  A driver is created with cursor 0 and the shadow pointer unknown
(`0xffffffff`); the base selector is a parameter. -/
def initState (devaddr : Nat) (b : I2C) : State :=
  { devaddr := devaddr, curpos := 0, eeprom_pos := 0xffffffff, I2c16 := b }

/-- Sample device contents. -/
def sampleMem : Nat → Nat := fun a => (a * 7 + 3) % 256

/-- Sample source buffer. -/
def sampleBuf : Nat → Nat := fun i => (i * 5 + 1) % 256

/-- A driver just created (base selector `0x50`) on a bus where nothing has happened yet, the
device holding the sample contents, with the given status codes for the coming transactions
and a chip that answers every acknowledge poll at once. -/
def freshDriver (errs : List Nat) : State := initState 0x50 (freshBus sampleMem errs [])

/-- A public operation of the driver. -/
inductive Op where
  | readByte
  | writeByte (v : Nat)
  | readAt (addr n : Nat)
  | writeAt (addr : Nat) (data : Nat → Nat) (n : Nat)
  | readDefault (n : Nat)
  | writeDefault (data : Nat → Nat) (n : Nat)

/-- The state a public operation leaves behind. -/
def Op.run : Op → State → State
  | Op.readByte, s => (EEPROM.read s).2
  | Op.writeByte v, s => (EEPROM.writeByte s v).2
  | Op.readAt addr n, s => (EEPROM.readAt s addr n).2.2
  | Op.writeAt addr data n, s => (EEPROM.writeAt s addr data n).2
  | Op.readDefault n, s => (EEPROM.readDefault s n).2.2
  | Op.writeDefault data n, s => (EEPROM.writeDefault s data n).2

/-- The state after a sequence of public operations. -/
def runOps (ops : List Op) (s : State) : State := ops.foldl (fun st op => op.run st) s

/-- Units carried by the bus writes of a log that succeeded before its first failing bus
write. -/
def acceptedUnits : List BusOp → Nat
  | [] => 0
  | BusOp.write _ _ data err :: rest => if err = 0 then data.length + acceptedUnits rest else 0
  | _ :: rest => acceptedUnits rest

/-- The linear address of the first unit of a bus write. -/
def BusOp.target : BusOp → Option Nat
  | BusOp.write dev addr _ _ => some (selBlock dev * 65536 + addr)
  | _ => none

/-- A bus operation that, if it is a bus write, carries 1 to 128 units whose first and last
unit lie in the same block (the relative address does not pass 65535) and in the same page
(relative address div 128). -/
def BusOp.pageConfined : BusOp → Prop
  | BusOp.write _ addr data _ =>
    1 ≤ data.length ∧ data.length ≤ 128 ∧ addr + data.length - 1 < 65536 ∧
      addr / 128 = (addr + data.length - 1) / 128
  | _ => True

/-- Between the states `s` and `s'` the log grew by operations that all satisfy `P`. -/
def Issued (P : BusOp → Prop) (s s' : State) : Prop :=
  ∃ new : List BusOp, s'.I2c16.log = s.I2c16.log ++ new ∧ ∀ e ∈ new, P e

/-- A driver with the given cursor and shadow pointer (base selector `0x50`) on a bus where
nothing has happened yet, the device holding the sample contents, with the given status codes
for the coming transactions. -/
def driverAt (curpos eeprom_pos : Nat) (errs : List Nat) : State :=
  { devaddr := 0x50, curpos := curpos, eeprom_pos := eeprom_pos,
    I2c16 := freshBus sampleMem errs [] }

/-- A bus read or bus write that reported an error. -/
def BusOp.failed : BusOp → Bool
  | BusOp.read _ _ _ err => err != 0
  | BusOp.readNext _ _ err => err != 0
  | BusOp.write _ _ _ err => err != 0
  | BusOp.poll _ _ => false

/-- Nothing follows a failed bus transaction in the list. -/
def StopsAtFailure (new : List BusOp) : Prop :=
  ∀ (pre : List BusOp) (e : BusOp) (post : List BusOp),
    new = pre ++ e :: post → e.failed = true → post = []

/-- Between `s` and `s'` the log grew by operations among which nothing follows a failed
transaction, and none of which failed if `ok` holds. -/
def Attempt (ok : Prop) (s s' : State) : Prop :=
  ∃ new : List BusOp, s'.I2c16.log = s.I2c16.log ++ new ∧ StopsAtFailure new ∧
    (ok → ∀ e ∈ new, e.failed = false)

/-- A bus operation that, if it is a bus read, is an addressed read of 1 to 255 units whose
first unit has a linear address `a` below 131072, sent to the selector of block `a div 65536`
at relative address `a mod 65536`, and that does not run past the end of that block. -/
def BusOp.blockConfined (devaddr : Nat) : BusOp → Prop
  | BusOp.read dev addr count _ =>
    ∃ a : Nat, a < 131072 ∧ dev = u8 (devaddr ||| ((a / 65536) <<< 2)) ∧ addr = a % 65536 ∧
      1 ≤ count ∧ count ≤ 255 ∧ a % 65536 + count ≤ 65536
  | BusOp.readNext _ _ _ => False
  | _ => True

/-! ## Arithmetic of the address macros -/

theorem BLOCKNUM_eq (a : Nat) : BLOCKNUM a = a / 65536 % 2 := by
  unfold BLOCKNUM
  apply Nat.eq_of_testBit_eq
  intro i
  rw [Nat.testBit_shiftRight, Nat.testBit_and, show (1 <<< 16 : Nat) = 2 ^ 16 by decide,
    Nat.testBit_two_pow]
  rw [← Nat.and_one_is_mod, Nat.testBit_and, show (65536 : Nat) = 2 ^ 16 by norm_num,
    ← Nat.shiftRight_eq_div_pow, Nat.testBit_shiftRight]
  rw [show (1 : Nat) = 2 ^ 0 by norm_num, Nat.testBit_two_pow]
  by_cases h : i = 0
  · subst h; simp
  · have h1 : ¬ (16 = 16 + i) := by omega
    have h2 : ¬ (0 = i) := by omega
    simp [h1, h2]

theorem TO_PAGEADDR_eq (a : Nat) : TO_PAGEADDR a = a % 65536 := by
  unfold TO_PAGEADDR u16
  have h := Nat.and_pow_two_sub_one_eq_mod a 16
  have h' : a &&& 0xffff = a % 65536 := by simpa using h
  rw [h', Nat.mod_mod]

theorem TO_FULLADDR_eq (b p : Nat) (hb : b < 65536) (hp : p < 65536) :
    TO_FULLADDR b p = b * 65536 + p := by
  unfold TO_FULLADDR u32
  have h1 : b % 4294967296 = b := Nat.mod_eq_of_lt (by omega)
  have h2 : p % 4294967296 = p := Nat.mod_eq_of_lt (by omega)
  rw [h1, h2, Nat.shiftLeft_eq]
  have h3 : (b * 2 ^ 16) % 4294967296 = b * 2 ^ 16 := Nat.mod_eq_of_lt (by omega)
  have h4 : 2 ^ 16 * b + p = 2 ^ 16 * b ||| p := Nat.mul_add_lt_is_or hp b
  rw [h3, Nat.mul_comm, ← h4]
  omega

/-- Claim C10. Address codec inverse law: for every linear address `a` below 131072,
`TO_FULLADDR(BLOCKNUM(a), TO_PAGEADDR(a))` is `a` again, the block number is 0 or 1 and the
block-relative address is below 65536. -/
theorem address_codec_inverse (a : Nat) (h : a < 131072) :
    TO_FULLADDR (BLOCKNUM a) (TO_PAGEADDR a) = a ∧
      (BLOCKNUM a = 0 ∨ BLOCKNUM a = 1) ∧ TO_PAGEADDR a < 65536 := by
  have hb : BLOCKNUM a < 2 := by rw [BLOCKNUM_eq]; omega
  have hp : TO_PAGEADDR a < 65536 := by rw [TO_PAGEADDR_eq]; omega
  refine ⟨?_, by omega, hp⟩
  rw [TO_FULLADDR_eq _ _ (by omega) hp, BLOCKNUM_eq, TO_PAGEADDR_eq]
  omega

theorem address_codec_inverse_witness :
    TO_FULLADDR (BLOCKNUM 70000) (TO_PAGEADDR 70000) = 70000 ∧
      (BLOCKNUM 70000 = 0 ∨ BLOCKNUM 70000 = 1) ∧ TO_PAGEADDR 70000 < 65536 :=
  address_codec_inverse 70000 (by decide)

/-! ## Memory, scripts and selectors -/

theorem memList_add (m : Nat → Nat) (a k j : Nat) :
    memList m a (k + j) = memList m a k ++ memList m (a + k) j := by
  unfold memList
  rw [List.range_add, List.map_append, List.map_map]
  congr 1
  apply List.map_congr_left
  intro i _
  simp [Nat.add_assoc]

theorem memList_store (m : Nat → Nat) (a : Nat) (d : Nat → Nat) (n : Nat) :
    memList (store m a d n) a n = bufTake d n := by
  unfold memList bufTake store
  apply List.map_congr_left
  intro i hi
  have hi' : i < n := List.mem_range.mp hi
  have h : a ≤ a + i ∧ a + i < a + n := by omega
  simp [h]

theorem store_zero (m : Nat → Nat) (a : Nat) (d : Nat → Nat) : store m a d 0 = m := by
  funext x
  simp [store]

theorem store_store (m : Nat → Nat) (a : Nat) (d : Nat → Nat) (k j : Nat) :
    store (store m a d k) (a + k) (shiftBuf d k) j = store m a d (k + j) := by
  funext x
  unfold store shiftBuf
  by_cases h1 : a + k ≤ x ∧ x < a + k + j
  · have h2 : a ≤ x ∧ x < a + (k + j) := by omega
    rw [if_pos h1, if_pos h2]
    congr 1
    omega
  · rw [if_neg h1]
    by_cases h2 : a ≤ x ∧ x < a + k
    · have h3 : a ≤ x ∧ x < a + (k + j) := by omega
      rw [if_pos h2, if_pos h3]
    · have h3 : ¬ (a ≤ x ∧ x < a + (k + j)) := by omega
      rw [if_neg h2, if_neg h3]

theorem shiftBuf_shiftBuf (d : Nat → Nat) (k j : Nat) :
    shiftBuf (shiftBuf d k) j = shiftBuf d (k + j) := by
  funext x
  simp [shiftBuf, Nat.add_assoc]

theorem NoFail.head {b : I2C} (h : NoFail b) : b.errs.headD 0 = 0 := by
  unfold NoFail at h
  cases hb : b.errs with
  | nil => rfl
  | cons e rest => rw [hb] at h; simpa using h e (by simp)

theorem NoFail.tail_errs {b : I2C} (h : NoFail b) : ∀ e ∈ b.errs.tail, e = 0 :=
  fun e he => h e (List.mem_of_mem_tail he)

theorem selBlock_dev (d b : Nat) (hd : selBlock d = 0) (hb : b < 2) :
    selBlock (u8 (d ||| (b <<< 2))) = b := by
  unfold selBlock u8 at *
  have hb' : b = 0 ∨ b = 1 := by omega
  rcases hb' with rfl | rfl
  · simp only [Nat.zero_shiftLeft, Nat.or_zero]
    omega
  · have h : Nat.testBit ((d ||| (1 <<< 2)) % 2 ^ 8) 2 = true := by
      rw [Nat.testBit_mod_two_pow, Nat.testBit_or]
      simp [Nat.testBit_to_div_mod]
    rw [Nat.testBit_to_div_mod] at h
    simpa using h

@[simp] theorem waitReady_mem (b : I2C) (dev : Nat) : (b.waitReady dev).mem = b.mem := rfl
@[simp] theorem waitReady_errs (b : I2C) (dev : Nat) : (b.waitReady dev).errs = b.errs := rfl
@[simp] theorem waitReady_ptr (b : I2C) (dev : Nat) : (b.waitReady dev).ptr = b.ptr := rfl
@[simp] theorem waitReady_rx (b : I2C) (dev : Nat) : (b.waitReady dev).rx = b.rx := rfl


theorem WriteOk.append {s s1 s2 : State} {a : Nat} {d : Nat → Nat} {k j : Nat}
    (h1 : WriteOk s s1 a d k) (h2 : WriteOk s1 s2 (a + k) (shiftBuf d k) j) :
    WriteOk s s2 a d (k + j) := by
  obtain ⟨m1, f1, d1⟩ := h1
  obtain ⟨m2, f2, d2⟩ := h2
  refine ⟨?_, f2, d2.trans d1⟩
  rw [m2, m1, store_store]

theorem writeSinglePage_ok (s : State) (a : Nat) (d : Nat → Nat) (n : Nat)
    (hn1 : 1 ≤ n) (hn : n ≤ 128) (ha : a ≤ 131071) (hb : BaseOk s) (hf : NoFail s.I2c16) :
    (writeSinglePage s a d n).1 = n ∧ WriteOk s (writeSinglePage s a d n).2 a d n := by
  have h0 : ¬ (n = 0 ∨ n > 128) := by omega
  have hsel : selBlock (u8 (s.devaddr ||| (BLOCKNUM a <<< 2))) * 65536 + TO_PAGEADDR a = a := by
    rw [selBlock_dev _ _ hb (by rw [BLOCKNUM_eq]; omega), BLOCKNUM_eq, TO_PAGEADDR_eq]
    omega
  unfold writeSinglePage
  rw [if_neg h0]
  simp only [I2C.write, hf.head, if_true, ne_eq, not_true_eq_false, if_false]
  refine ⟨trivial, ?_, ?_, rfl⟩
  · simp only [waitReady_mem, hsel]
  · intro e he
    exact hf.tail_errs e he

/-! ## The chunk writer, with its arithmetic carried out -/

theorem chunk_arith (a n : Nat) (hn1 : 1 ≤ n) (hn : n ≤ 128) (ha : a ≤ 131071) :
    let pageaddr := a % 65536
    let first_block := u8 (a / 65536 % 2)
    let second_block := u8 (sub32 (u32 (a + n)) 1 / 65536 % 2)
    let first_page := u16 (pageaddr / 128)
    let second_page := u16 (sub32 (u32 (pageaddr + n)) 1 % 65536 / 128)
    ((first_page = second_page ∧ first_block = second_block) ↔ a % 128 + n ≤ 128) ∧
    (¬ a % 128 + n ≤ 128 →
      u8 (sub32 (u16 ((first_page + 1) * 128)) pageaddr) = 128 - a % 128 ∧
      u8 (n + 256 - u8 (sub32 (u16 ((first_page + 1) * 128)) pageaddr)) = n - (128 - a % 128) ∧
      first_block * 65536 + pageaddr = a ∧ first_block < 2 ∧
      second_block < 2 ∧ u16 (second_page * 128) < 65536 ∧
      second_block * 65536 + u16 (second_page * 128) = (a + (128 - a % 128)) % 131072) := by
  simp only [u8, u16, u32, sub32]
  refine ⟨?_, ?_⟩
  · omega
  · intro h
    omega

/-- `writeChunk` on an accepted request, with the address arithmetic carried out. -/
theorem writeChunk_eq (s : State) (a : Nat) (d : Nat → Nat) (n : Nat)
    (hn1 : 1 ≤ n) (hn : n ≤ 128) (ha : a ≤ 131071) :
    writeChunk s a d n =
      if a % 128 + n ≤ 128 then writeSinglePage s a d n
      else
        let k := 128 - a % 128
        let r1 := writeSinglePage s a d k
        if r1.1 ≠ k then r1
        else
          let r2 := writeSinglePage r1.2 ((a + k) % 131072) (shiftBuf d k) (n - k)
          if r2.1 ≠ n - k then r2 else (n, r2.2) := by
  have h0 : ¬ (n = 0 ∨ n > 128 ∨ a > 131071) := by omega
  obtain ⟨hc, hs⟩ := chunk_arith a n hn1 hn ha
  unfold writeChunk
  rw [if_neg h0]
  simp only [BLOCKNUM_eq, TO_PAGEADDR_eq]
  by_cases hx : a % 128 + n ≤ 128
  · rw [if_pos (hc.mpr hx), if_pos hx]
  · rw [if_neg (fun h => hx (hc.mp h)), if_neg hx]
    obtain ⟨h1, h2, h3, h4, h5, h6, h7⟩ := hs hx
    rw [h1] at h2
    rw [h1, h2, TO_FULLADDR_eq _ _ (by omega) (by omega), h3,
      TO_FULLADDR_eq _ _ (by omega) h6, h7]

/-! ## Failure-free writes -/

theorem WriteOk.base_kept {s s' : State} {a : Nat} {d : Nat → Nat} {n : Nat}
    (h : WriteOk s s' a d n) (hb : BaseOk s) : BaseOk s' := by
  unfold BaseOk at *
  rw [h.2.2]
  exact hb

theorem writeChunk_ok (s : State) (a : Nat) (d : Nat → Nat) (n : Nat)
    (hn1 : 1 ≤ n) (hn : n ≤ 128) (ha : a + n ≤ 131072) (hb : BaseOk s) (hf : NoFail s.I2c16) :
    (writeChunk s a d n).1 = n ∧ WriteOk s (writeChunk s a d n).2 a d n := by
  rw [writeChunk_eq s a d n hn1 hn (by omega)]
  by_cases hx : a % 128 + n ≤ 128
  · rw [if_pos hx]
    exact writeSinglePage_ok s a d n hn1 hn (by omega) hb hf
  · rw [if_neg hx]
    have hk1 : 1 ≤ 128 - a % 128 := by omega
    have hk : 128 - a % 128 ≤ 128 := by omega
    obtain ⟨e1, w1⟩ := writeSinglePage_ok s a d (128 - a % 128) hk1 hk (by omega) hb hf
    have hmod : (a + (128 - a % 128)) % 131072 = a + (128 - a % 128) :=
      Nat.mod_eq_of_lt (by omega)
    obtain ⟨e2, w2⟩ := writeSinglePage_ok (writeSinglePage s a d (128 - a % 128)).2
      (a + (128 - a % 128)) (shiftBuf d (128 - a % 128)) (n - (128 - a % 128))
      (by omega) (by omega) (by omega) (WriteOk.base_kept w1 hb) w1.2.1
    simp only [hmod, e1, e2, ne_eq, not_true_eq_false, if_false]
    refine ⟨trivial, ?_⟩
    have h := WriteOk.append w1 w2
    have hsum : 128 - a % 128 + (n - (128 - a % 128)) = n := by omega
    rw [hsum] at h
    exact h

theorem WriteOk.refl (s : State) (a : Nat) (d : Nat → Nat) (hf : NoFail s.I2c16) :
    WriteOk s s a d 0 :=
  ⟨(store_zero _ _ _).symm, hf, rfl⟩

theorem writeLoop_ok (a : Nat) (d : Nat → Nat) (N : Nat) (hN : a + N ≤ 131072) :
    ∀ (fuel : Nat) (s : State) (w : Nat), w ≤ N → N - w ≤ fuel → BaseOk s → NoFail s.I2c16 →
      (writeLoop a d N fuel s w).1 = N ∧
        WriteOk s (writeLoop a d N fuel s w).2 (a + w) (shiftBuf d w) (N - w) := by
  intro fuel
  induction fuel with
  | zero =>
    intro s w hw hfuel _ hf
    have hwN : w = N := by omega
    subst hwN
    simp only [writeLoop, Nat.sub_self]
    exact ⟨trivial, WriteOk.refl s _ _ hf⟩
  | succ fuel ih =>
    intro s w hw hfuel hb hf
    unfold writeLoop
    by_cases hlt : w < N
    · rw [if_pos hlt]
      have hsub : sub32 N w = N - w := by
        simp only [sub32, u32]
        omega
      have hwant1 : 1 ≤ min 128 (N - w) := by omega
      have hwant : min 128 (N - w) ≤ 128 := by omega
      have hu8 : u8 (min 128 (N - w)) = min 128 (N - w) := by
        simp only [u8]; omega
      have hu32 : u32 (a + w) = a + w := by
        simp only [u32]; omega
      obtain ⟨e1, w1⟩ := writeChunk_ok s (a + w) (shiftBuf d w) (min 128 (N - w))
        hwant1 hwant (by omega) hb hf
      simp only [hsub, hu8, hu32, e1, if_true]
      have hu32' : u32 (w + min 128 (N - w)) = w + min 128 (N - w) := by
        simp only [u32]; omega
      rw [hu32']
      obtain ⟨e2, w2⟩ := ih (writeChunk s (a + w) (shiftBuf d w) (min 128 (N - w))).2
        (w + min 128 (N - w)) (by omega) (by omega) (WriteOk.base_kept w1 hb) w1.2.1
      refine ⟨e2, ?_⟩
      have hadd : a + (w + min 128 (N - w)) = a + w + min 128 (N - w) := by omega
      rw [← shiftBuf_shiftBuf, hadd] at w2
      have h := WriteOk.append w1 w2
      have hsum : min 128 (N - w) + (N - (w + min 128 (N - w))) = N - w := by omega
      rw [hsum] at h
      exact h
    · rw [if_neg hlt]
      have hwN : w = N := by omega
      subst hwN
      simp only [Nat.sub_self]
      exact ⟨trivial, WriteOk.refl s _ _ hf⟩

theorem shiftBuf_zero (d : Nat → Nat) : shiftBuf d 0 = d := by
  funext x
  simp [shiftBuf]

theorem writeAt_ok (s : State) (a : Nat) (d : Nat → Nat) (n : Nat)
    (ha : a + n ≤ 131072) (hb : BaseOk s) (hf : NoFail s.I2c16) :
    (writeAt s a d n).1 = n ∧ WriteOk s (writeAt s a d n).2 a d n := by
  unfold writeAt
  by_cases h0 : n = 0
  · subst h0
    simp only [if_true]
    exact ⟨trivial, WriteOk.refl s _ _ hf⟩
  · rw [if_neg h0]
    by_cases h1 : n ≤ 128
    · rw [if_pos h1]
      have hu8 : u8 n = n := by simp only [u8]; omega
      rw [hu8]
      exact writeChunk_ok s a d n (by omega) h1 ha hb hf
    · rw [if_neg h1]
      have hclamp : (if u32 (a + n) > 131071 then sub32 131072 a else n) = n := by
        simp only [u32, sub32]
        split <;> omega
      simp only [hclamp]
      have h := writeLoop_ok a d n ha n s 0 (by omega) (by omega) hb hf
      simpa [shiftBuf_zero] using h

/-! ## Failure-free reads -/

theorem ReadOk.base_same {s s' : State} (h : ReadOk s s') (hb : BaseOk s) : BaseOk s' := by
  unfold BaseOk at *
  rw [h.2.2]
  exact hb

theorem ReadOk.chain {s s1 s2 : State} (h1 : ReadOk s s1) (h2 : ReadOk s1 s2) : ReadOk s s2 :=
  ⟨h2.1.trans h1.1, h2.2.1, h2.2.2.trans h1.2.2⟩

theorem NoFail.tail_head {b : I2C} (h : NoFail b) : b.errs.tail.headD 0 = 0 := by
  cases hb : b.errs.tail with
  | nil => rfl
  | cons e rest =>
    have := h.tail_errs e (by rw [hb]; simp)
    simpa using this

theorem load_eq_memList (b : I2C) (dev addr count : Nat) :
    b.load dev addr count = memList b.mem (selBlock dev * 65536 + addr) count := by
  unfold I2C.load memList
  apply List.map_congr_left
  intro i _
  rw [Nat.add_assoc]

theorem readChunk_ok (s : State) (a n : Nat)
    (hn1 : 1 ≤ n) (hn : n ≤ 255) (ha : a + n ≤ 131072) (hb : BaseOk s) (hf : NoFail s.I2c16) :
    (readChunk s a n).1 = n ∧ (readChunk s a n).2.1 = memList s.I2c16.mem a n ∧
      ReadOk s (readChunk s a n).2.2 ∧ (readChunk s a n).2.2.curpos = u32 (s.curpos + n) := by
  have h0 : ¬ (n = 0 ∨ a > 131071) := by omega
  have hclamp : (if u32 (a + n) > 131071 then u8 (sub32 131072 a) else n) = n := by
    simp only [u32, sub32, u8]
    split <;> omega
  unfold readChunk
  rw [if_neg h0]
  simp only [hclamp]
  have hu : u32 (a + n) = a + n := by simp only [u32]; omega
  rw [hu]
  by_cases hx : a < 65536 ∧ a + n > 65536
  · rw [if_pos hx]
    have h1 : u16 a = a := by simp only [u16]; omega
    have h2 : sub32 65536 a = 65536 - a := by simp only [sub32, u32]; omega
    have h3 : u8 (65536 - a) = 65536 - a := by simp only [u8]; omega
    have h4 : sub32 n (65536 - a) = n - (65536 - a) := by simp only [sub32, u32]; omega
    have h5 : u8 (n - (65536 - a)) = n - (65536 - a) := by simp only [u8]; omega
    have hsel1 : selBlock (u8 (s.devaddr ||| (1 <<< 2))) = 1 := selBlock_dev _ 1 hb (by omega)
    have hsel0 : selBlock (u8 s.devaddr) = 0 := by
      have h := selBlock_dev s.devaddr 0 hb (by omega)
      simpa using h
    simp only [h1, h2, h3, h4, h5, I2C.read, hf.head, hf.tail_head, if_true, ne_eq,
      not_true_eq_false, if_false, load_eq_memList, hsel0, hsel1]
    refine ⟨trivial, ?_, ⟨rfl, ?_, rfl⟩, trivial⟩
    · have hsum : n = (65536 - a) + (n - (65536 - a)) := by omega
      conv_rhs => rw [hsum, memList_add]
      congr 2 <;> omega
    · intro e he
      exact hf.tail_errs e (List.mem_of_mem_tail he)
  · rw [if_neg hx]
    have hsel : selBlock (u8 (s.devaddr ||| (u8 (BLOCKNUM a) <<< 2))) * 65536 + TO_PAGEADDR a = a := by
      have hbl : u8 (BLOCKNUM a) = a / 65536 % 2 := by rw [BLOCKNUM_eq]; simp only [u8]; omega
      rw [hbl, selBlock_dev _ _ hb (by omega), TO_PAGEADDR_eq]
      omega
    simp only [I2C.read, hf.head, if_true, ne_eq, not_true_eq_false, if_false, load_eq_memList,
      hsel]
    exact ⟨trivial, trivial, ⟨rfl, fun e he => hf.tail_errs e he, rfl⟩, trivial⟩

theorem readLoop_ok (a N : Nat) (hN : a + N ≤ 131072) :
    ∀ (fuel : Nat) (s : State) (r : Nat) (out : List Nat), r ≤ N → N - r ≤ fuel → BaseOk s →
      NoFail s.I2c16 →
      (readLoop a N fuel s r out).1 = N ∧
        (readLoop a N fuel s r out).2.1 = out ++ memList s.I2c16.mem (a + r) (N - r) ∧
        ReadOk s (readLoop a N fuel s r out).2.2 := by
  intro fuel
  induction fuel with
  | zero =>
    intro s r out hr hfuel _ hf
    have hrN : r = N := by omega
    subst hrN
    simp only [readLoop, Nat.sub_self]
    exact ⟨trivial, by simp [memList], rfl, hf, rfl⟩
  | succ fuel ih =>
    intro s r out hr hfuel hb hf
    unfold readLoop
    by_cases hlt : r < N
    · rw [if_pos hlt]
      have hsub : sub32 N r = N - r := by
        simp only [sub32, u32]
        omega
      have hu8 : u8 (min 240 (N - r)) = min 240 (N - r) := by
        simp only [u8]; omega
      have hu32 : u32 (a + r) = a + r := by
        simp only [u32]; omega
      obtain ⟨e1, o1, w1, _⟩ := readChunk_ok s (a + r) (min 240 (N - r))
        (by omega) (by omega) (by omega) hb hf
      simp only [hsub, hu8, hu32, e1, if_true]
      have hu32' : u32 (r + min 240 (N - r)) = r + min 240 (N - r) := by
        simp only [u32]; omega
      rw [hu32']
      obtain ⟨e2, o2, w2⟩ := ih (readChunk s (a + r) (min 240 (N - r))).2.2
        (r + min 240 (N - r)) (out ++ (readChunk s (a + r) (min 240 (N - r))).2.1)
        (by omega) (by omega) (ReadOk.base_same w1 hb) w1.2.1
      refine ⟨e2, ?_, ReadOk.chain w1 w2⟩
      rw [o2, o1, w1.1, List.append_assoc]
      congr 1
      have hsum : N - r = min 240 (N - r) + (N - (r + min 240 (N - r))) := by omega
      conv_rhs => rw [hsum, memList_add]
      congr 2
      omega
    · rw [if_neg hlt]
      have hrN : r = N := by omega
      subst hrN
      simp only [Nat.sub_self]
      exact ⟨trivial, by simp [memList], rfl, hf, rfl⟩

theorem readAt_ok (s : State) (a n : Nat)
    (ha : a + n ≤ 131072) (hb : BaseOk s) (hf : NoFail s.I2c16) :
    (readAt s a n).1 = n ∧ (readAt s a n).2.1 = memList s.I2c16.mem a n ∧
      ReadOk s (readAt s a n).2.2 := by
  unfold readAt
  by_cases h0 : n = 0
  · subst h0
    simp only [if_true]
    exact ⟨trivial, by simp [memList], rfl, hf, rfl⟩
  · rw [if_neg h0]
    by_cases h1 : n ≤ 255
    · rw [if_pos h1]
      have hu8 : u8 n = n := by simp only [u8]; omega
      rw [hu8]
      obtain ⟨e, o, w, _⟩ := readChunk_ok s a n (by omega) h1 ha hb hf
      exact ⟨e, o, w⟩
    · rw [if_neg h1]
      have hclamp : (if u32 (a + n) > 131071 then sub32 131072 a else n) = n := by
        simp only [u32, sub32]
        split <;> omega
      simp only [hclamp]
      have h := readLoop_ok a n ha n s 0 [] (by omega) (by omega) hb hf
      simpa using h

/-! ## The loops never run out of fuel -/

/-- The fuel of `writeLoop` is never the reason the loop stops: with at least
`bytesToWrite - bytesWritten` iterations allowed, one more changes nothing. -/
theorem writeLoop_fuel (a : Nat) (d : Nat → Nat) (N : Nat) (hN : N < 4294967296) :
    ∀ (fuel : Nat) (s : State) (w : Nat), w ≤ N → N - w ≤ fuel →
      writeLoop a d N (fuel + 1) s w = writeLoop a d N fuel s w := by
  intro fuel
  induction fuel with
  | zero =>
    intro s w hw hfuel
    have hwN : ¬ w < N := by omega
    simp only [writeLoop, if_neg hwN]
  | succ fuel ih =>
    intro s w hw hfuel
    rw [writeLoop.eq_def a d N (fuel + 1 + 1), writeLoop.eq_def a d N (fuel + 1)]
    simp only
    by_cases hlt : w < N
    · simp only [if_pos hlt]
      have hsub : sub32 N w = N - w := by simp only [sub32, u32]; omega
      rw [hsub]
      split
      · rename_i heq
        rw [heq]
        have hu : u32 (w + min 128 (N - w)) = w + min 128 (N - w) := by simp only [u32]; omega
        rw [hu]
        exact ih _ _ (by omega) (by omega)
      · rfl
    · simp only [if_neg hlt]

/-- The fuel of `readLoop` is never the reason the loop stops. -/
theorem readLoop_fuel (a N : Nat) (hN : N < 4294967296) :
    ∀ (fuel : Nat) (s : State) (r : Nat) (out : List Nat), r ≤ N → N - r ≤ fuel →
      readLoop a N (fuel + 1) s r out = readLoop a N fuel s r out := by
  intro fuel
  induction fuel with
  | zero =>
    intro s r out hr hfuel
    have hrN : ¬ r < N := by omega
    simp only [readLoop, if_neg hrN]
  | succ fuel ih =>
    intro s r out hr hfuel
    rw [readLoop.eq_def a N (fuel + 1 + 1), readLoop.eq_def a N (fuel + 1)]
    simp only
    by_cases hlt : r < N
    · simp only [if_pos hlt]
      have hsub : sub32 N r = N - r := by simp only [sub32, u32]; omega
      rw [hsub]
      split
      · rename_i heq
        rw [heq]
        have hu : u32 (r + min 240 (N - r)) = r + min 240 (N - r) := by simp only [u32]; omega
        rw [hu]
        exact ih _ _ _ (by omega) (by omega)
      · rfl
    · simp only [if_neg hlt]

/-! ## Round trip -/

/-- Claim C1. Round trip: for every linear address `a` and count `n` with
`a + n ≤ 131072`, every source buffer and every starting driver state (base selector with its
block bit clear), if no bus transaction fails then `write(a, src, n)` returns `n` and a
following `read(a, dst, n)` returns `n` and delivers the `n` units of the source, unit for
unit. -/
theorem write_read_round_trip (s : State) (a n : Nat) (src : Nat → Nat)
    (ha : a + n ≤ 131072) (hb : BaseOk s) (hf : NoFail s.I2c16) :
    (writeAt s a src n).1 = n ∧
      (readAt (writeAt s a src n).2 a n).1 = n ∧
      (readAt (writeAt s a src n).2 a n).2.1 = bufTake src n := by
  obtain ⟨e1, w1⟩ := writeAt_ok s a src n ha hb hf
  obtain ⟨e2, o2, _⟩ := readAt_ok (writeAt s a src n).2 a n ha (WriteOk.base_kept w1 hb) w1.2.1
  refine ⟨e1, e2, ?_⟩
  rw [o2, w1.1, memList_store]

theorem write_read_round_trip_witness :
    (writeAt (freshDriver []) 65500 sampleBuf 300).1 = 300 ∧
      (readAt (writeAt (freshDriver []) 65500 sampleBuf 300).2 65500 300).1 = 300 ∧
      (readAt (writeAt (freshDriver []) 65500 sampleBuf 300).2 65500 300).2.1 =
        bufTake sampleBuf 300 :=
  write_read_round_trip (freshDriver []) 65500 300 sampleBuf (by decide) (by decide) (by decide)

/-! ## Boundary-split read -/

/-- Claim C7. Boundary-split read: for every `addr < 65536` and `n ≤ 255` with
`addr + n > 65536`, if no bus transaction fails then `readChunk(addr, buf, n)` returns `n`
and delivers the concatenation of what a read of `65536 - addr` units at `addr` (block 0) and
a following read of `n - (65536 - addr)` units at linear address 65536 (block 1, relative
address 0) deliver, which are the device units at those addresses; the bus is left exactly as
the two separate reads leave it. -/
theorem readChunk_boundary_split (s : State) (a n : Nat)
    (ha : a < 65536) (hn : n ≤ 255) (hx : a + n > 65536) (hb : BaseOk s)
    (hf : NoFail s.I2c16) :
    (readChunk s a n).1 = n ∧
      (readChunk s a n).2.1 =
        (readChunk s a (65536 - a)).2.1 ++
          (readChunk (readChunk s a (65536 - a)).2.2 65536 (n - (65536 - a))).2.1 ∧
      (readChunk s a (65536 - a)).2.1 = memList s.I2c16.mem a (65536 - a) ∧
      (readChunk (readChunk s a (65536 - a)).2.2 65536 (n - (65536 - a))).2.1 =
        memList s.I2c16.mem 65536 (n - (65536 - a)) ∧
      (readChunk s a n).2.2.I2c16 =
        (readChunk (readChunk s a (65536 - a)).2.2 65536 (n - (65536 - a))).2.2.I2c16 := by
  obtain ⟨e, o, _, _⟩ := readChunk_ok s a n (by omega) hn (by omega) hb hf
  obtain ⟨e1, o1, w1, _⟩ := readChunk_ok s a (65536 - a) (by omega) (by omega) (by omega) hb hf
  obtain ⟨e2, o2, w2, _⟩ := readChunk_ok (readChunk s a (65536 - a)).2.2 65536 (n - (65536 - a))
    (by omega) (by omega) (by omega) (ReadOk.base_same w1 hb) w1.2.1
  refine ⟨e, ?_, o1, ?_, ?_⟩
  · rw [o, o1, o2, w1.1]
    have hsum : n = (65536 - a) + (n - (65536 - a)) := by omega
    conv_lhs => rw [hsum, memList_add]
    congr 2
    omega
  · rw [o2, w1.1]
  · have h0 : ¬ (n = 0 ∨ a > 131071) := by omega
    have h0' : ¬ (65536 - a = 0 ∨ a > 131071) := by omega
    have h0'' : ¬ (n - (65536 - a) = 0 ∨ 65536 > 131071) := by omega
    have hc : (if u32 (a + n) > 131071 then u8 (sub32 131072 a) else n) = n := by
      simp only [u32, sub32, u8]
      split <;> omega
    have hc' : (if u32 (a + (65536 - a)) > 131071 then u8 (sub32 131072 a) else 65536 - a)
        = 65536 - a := by
      simp only [u32, sub32, u8]
      split <;> omega
    have hc'' : (if u32 (65536 + (n - (65536 - a))) > 131071 then u8 (sub32 131072 65536)
        else n - (65536 - a)) = n - (65536 - a) := by
      simp only [u32, sub32, u8]
      split <;> omega
    have hs : a < 65536 ∧ u32 (a + n) > 65536 := by simp only [u32]; omega
    have hs' : ¬ (a < 65536 ∧ u32 (a + (65536 - a)) > 65536) := by simp only [u32]; omega
    have hs'' : ¬ (65536 < 65536 ∧ u32 (65536 + (n - (65536 - a))) > 65536) := by omega
    have h1 : u16 a = a := by simp only [u16]; omega
    have h2 : sub32 65536 a = 65536 - a := by simp only [sub32, u32]; omega
    have h3 : u8 (65536 - a) = 65536 - a := by simp only [u8]; omega
    have h4 : sub32 n (65536 - a) = n - (65536 - a) := by simp only [sub32, u32]; omega
    have h5 : u8 (n - (65536 - a)) = n - (65536 - a) := by simp only [u8]; omega
    have hb0 : u8 (BLOCKNUM a) = 0 := by rw [BLOCKNUM_eq]; simp only [u8]; omega
    have hb1 : u8 (BLOCKNUM 65536) = 1 := by decide
    have hp0 : TO_PAGEADDR a = a := by rw [TO_PAGEADDR_eq]; omega
    have hp1 : TO_PAGEADDR 65536 = 0 := by decide
    unfold readChunk
    simp only [if_neg h0, if_neg h0', if_neg h0'', hc, hc', hc'', if_pos hs, if_neg hs',
      if_neg hs'', h1, h2, h3, h4, h5, hb0, hb1, hp0, hp1, I2C.read, hf.head, hf.tail_head,
      if_true, ne_eq, not_true_eq_false, if_false, Nat.zero_shiftLeft, Nat.or_zero]

theorem readChunk_boundary_split_witness :
    (readChunk (freshDriver []) 65533 6).1 = 6 ∧
      (readChunk (freshDriver []) 65533 6).2.1 =
        (readChunk (freshDriver []) 65533 3).2.1 ++
          (readChunk (readChunk (freshDriver []) 65533 3).2.2 65536 3).2.1 ∧
      (readChunk (freshDriver []) 65533 3).2.1 = memList sampleMem 65533 3 ∧
      (readChunk (readChunk (freshDriver []) 65533 3).2.2 65536 3).2.1 =
        memList sampleMem 65536 3 ∧
      (readChunk (freshDriver []) 65533 6).2.2.I2c16 =
        (readChunk (readChunk (freshDriver []) 65533 3).2.2 65536 3).2.2.I2c16 :=
  readChunk_boundary_split (freshDriver []) 65533 6
    (by decide) (by decide) (by decide) (by decide) (by decide)

/-! ## Page-split write -/

theorem writeSinglePage_count (s : State) (a : Nat) (d : Nat → Nat) (n : Nat)
    (hn1 : 1 ≤ n) (hn : n ≤ 128) :
    (s.I2c16.errs.headD 0 = 0 → (writeSinglePage s a d n).1 = n) ∧
      (s.I2c16.errs.headD 0 ≠ 0 → (writeSinglePage s a d n).1 = 0) := by
  have h0 : ¬ (n = 0 ∨ n > 128) := by omega
  unfold writeSinglePage
  rw [if_neg h0]
  constructor
  · intro h
    simp only [I2C.write, h, if_true, ne_eq, not_true_eq_false, if_false]
  · intro h
    simp only [I2C.write, h, if_false, ne_eq, not_false_eq_true, if_true]

/-- Claim C8, as amended. Page-split write: for every `addr` and `n` in 1..128 with
`addr + n ≤ 131072` whose span crosses a 128-unit page boundary, with
`k = 128 - (addr mod 128)`: if the bus write of the first sub-write succeeds, `writeChunk(addr,
data, n)` leaves the same state (the log of bus transactions, the device contents and the driver
fields) as `writeSinglePage(addr, data, k)` followed by `writeSinglePage(addr + k, data + k,
n - k)`, the block boundary at 65536 included; if that bus write fails, `writeChunk` is the
first `writeSinglePage` alone and the second sub-write is not attempted. -/
theorem writeChunk_page_split (s : State) (a : Nat) (d : Nat → Nat) (n : Nat)
    (hn1 : 1 ≤ n) (hn : n ≤ 128) (ha : a + n ≤ 131072) (hx : a % 128 + n > 128) :
    (s.I2c16.errs.headD 0 = 0 →
      (writeChunk s a d n).2 =
        (writeSinglePage (writeSinglePage s a d (128 - a % 128)).2 (a + (128 - a % 128))
          (shiftBuf d (128 - a % 128)) (n - (128 - a % 128))).2) ∧
    (s.I2c16.errs.headD 0 ≠ 0 →
      writeChunk s a d n = writeSinglePage s a d (128 - a % 128)) := by
  have hx' : ¬ a % 128 + n ≤ 128 := by omega
  have hmod : (a + (128 - a % 128)) % 131072 = a + (128 - a % 128) :=
    Nat.mod_eq_of_lt (by omega)
  obtain ⟨c0, c1⟩ := writeSinglePage_count s a d (128 - a % 128) (by omega) (by omega)
  rw [writeChunk_eq s a d n hn1 hn (by omega), if_neg hx']
  constructor
  · intro h
    simp only [c0 h, hmod, ne_eq, not_true_eq_false, if_false]
    split <;> rfl
  · intro h
    have hk : (writeSinglePage s a d (128 - a % 128)).1 ≠ 128 - a % 128 := by
      rw [c1 h]; omega
    simp only [hk, ne_eq, not_false_eq_true, if_true]

/-- Claim C8 as stated fails when the first bus write fails: for `addr = 120`, `n = 16`
and a bus whose next transaction fails, `writeChunk` logs one bus operation, the two
single-page writes log three, and the unit at 128 differs afterwards. -/
theorem writeChunk_split_first_failure :
    (writeChunk (freshDriver [1]) 120 sampleBuf 16).2.I2c16.log.length = 1 ∧
    (writeSinglePage (writeSinglePage (freshDriver [1]) 120 sampleBuf 8).2 128
      (shiftBuf sampleBuf 8) 8).2.I2c16.log.length = 3 ∧
    (writeChunk (freshDriver [1]) 120 sampleBuf 16).2.I2c16.mem 128 ≠
      (writeSinglePage (writeSinglePage (freshDriver [1]) 120 sampleBuf 8).2 128
        (shiftBuf sampleBuf 8) 8).2.I2c16.mem 128 := by
  decide

theorem writeChunk_page_split_witness :
    (writeChunk (freshDriver []) 120 sampleBuf 16).2 =
      (writeSinglePage (writeSinglePage (freshDriver []) 120 sampleBuf 8).2 128
        (shiftBuf sampleBuf 8) 8).2 :=
  (writeChunk_page_split (freshDriver []) 120 sampleBuf 16
    (by decide) (by decide) (by decide) (by decide)).1 (by decide)

/-! ## Page confinement of bus writes -/

theorem Issued.none (P : BusOp → Prop) (s : State) : Issued P s s :=
  ⟨[], by simp, by simp⟩

theorem Issued.seq {P : BusOp → Prop} {s s1 s2 : State}
    (h1 : Issued P s s1) (h2 : Issued P s1 s2) : Issued P s s2 := by
  obtain ⟨n1, l1, p1⟩ := h1
  obtain ⟨n2, l2, p2⟩ := h2
  refine ⟨n1 ++ n2, ?_, ?_⟩
  · rw [l2, l1, List.append_assoc]
  · intro e he
    rcases List.mem_append.mp he with h | h
    · exact p1 e h
    · exact p2 e h

theorem pollLoop_log (dev : Nat) :
    ∀ (acks : List Bool) (log : List BusOp),
      ∃ new : List BusOp, (pollLoop dev acks log).2 = log ++ new ∧
        ∀ e ∈ new, ∃ r, e = BusOp.poll dev r := by
  intro acks
  induction acks with
  | nil =>
    intro log
    exact ⟨[BusOp.poll dev true], rfl, by simp⟩
  | cons x rest ih =>
    intro log
    cases x with
    | true => exact ⟨[BusOp.poll dev true], rfl, by simp⟩
    | false =>
      obtain ⟨new, hl, hp⟩ := ih (log ++ [BusOp.poll dev false])
      refine ⟨BusOp.poll dev false :: new, ?_, ?_⟩
      · simp only [pollLoop]
        rw [hl, List.append_assoc]
        rfl
      · intro e he
        rcases List.mem_cons.mp he with h | h
        · exact ⟨false, h⟩
        · exact hp e h

theorem bufTake_length (d : Nat → Nat) (n : Nat) : (bufTake d n).length = n := by
  simp [bufTake]

theorem writeSinglePage_issued (s : State) (a : Nat) (d : Nat → Nat) (n : Nat)
    (hp : a % 128 + n ≤ 128) :
    Issued BusOp.pageConfined s (writeSinglePage s a d n).2 := by
  unfold writeSinglePage
  by_cases h0 : n = 0 ∨ n > 128
  · rw [if_pos h0]
    exact Issued.none _ _
  · rw [if_neg h0]
    have hconf : ∀ err, BusOp.pageConfined
        (BusOp.write (u8 (s.devaddr ||| (BLOCKNUM a <<< 2))) (TO_PAGEADDR a) (bufTake d n) err) := by
      intro err
      simp only [BusOp.pageConfined, bufTake_length, TO_PAGEADDR_eq]
      omega
    by_cases he : s.I2c16.errs.headD 0 = 0
    · simp only [I2C.write, he, if_true, ne_eq, not_true_eq_false, if_false]
      obtain ⟨new, hl, hpoll⟩ := pollLoop_log (u8 (s.devaddr ||| (BLOCKNUM a <<< 2)))
        s.I2c16.acks (s.I2c16.log ++
          [BusOp.write (u8 (s.devaddr ||| (BLOCKNUM a <<< 2))) (TO_PAGEADDR a) (bufTake d n) 0])
      refine ⟨BusOp.write (u8 (s.devaddr ||| (BLOCKNUM a <<< 2))) (TO_PAGEADDR a)
        (bufTake d n) 0 :: new, ?_, ?_⟩
      · simp only [I2C.waitReady]
        rw [hl, List.append_assoc]
        rfl
      · intro e hmem
        rcases List.mem_cons.mp hmem with h | h
        · rw [h]; exact hconf 0
        · obtain ⟨r, hr⟩ := hpoll e h
          rw [hr]
          trivial
    · simp only [I2C.write, he, if_false, ne_eq, not_false_eq_true, if_true]
      refine ⟨[BusOp.write (u8 (s.devaddr ||| (BLOCKNUM a <<< 2))) (TO_PAGEADDR a)
        (bufTake d n) (s.I2c16.errs.headD 0)], rfl, ?_⟩
      intro e hmem
      rw [List.mem_singleton.mp hmem]
      exact hconf _

theorem writeChunk_issued (s : State) (a : Nat) (d : Nat → Nat) (n : Nat) :
    Issued BusOp.pageConfined s (writeChunk s a d n).2 := by
  by_cases h0 : n = 0 ∨ n > 128 ∨ a > 131071
  · unfold writeChunk
    rw [if_pos h0]
    exact Issued.none _ _
  · rw [writeChunk_eq s a d n (by omega) (by omega) (by omega)]
    by_cases hx : a % 128 + n ≤ 128
    · rw [if_pos hx]
      exact writeSinglePage_issued s a d n hx
    · rw [if_neg hx]
      have i1 := writeSinglePage_issued s a d (128 - a % 128) (by omega)
      have i2 := writeSinglePage_issued (writeSinglePage s a d (128 - a % 128)).2
        ((a + (128 - a % 128)) % 131072) (shiftBuf d (128 - a % 128)) (n - (128 - a % 128))
        (by omega)
      simp only
      split
      · exact i1
      · split
        · exact i1.seq i2
        · exact i1.seq i2

theorem writeLoop_issued (a : Nat) (d : Nat → Nat) (N : Nat) :
    ∀ (fuel : Nat) (s : State) (w : Nat),
      Issued BusOp.pageConfined s (writeLoop a d N fuel s w).2 := by
  intro fuel
  induction fuel with
  | zero =>
    intro s w
    exact Issued.none _ _
  | succ fuel ih =>
    intro s w
    unfold writeLoop
    split
    · simp only
      split
      · exact (writeChunk_issued s _ _ _).seq (ih _ _)
      · exact writeChunk_issued s _ _ _
    · exact Issued.none _ _

/-- Claim C9. Page confinement of writes: for every `addr`, `n`, starting state and bus
script, every bus write that `write(addr, data, n)` adds to the log carries between 1 and 128
units, and its first and last unit lie in the same block and in the same page. -/
theorem write_page_confined (s : State) (a : Nat) (d : Nat → Nat) (n : Nat) :
    ∃ new : List BusOp, (writeAt s a d n).2.I2c16.log = s.I2c16.log ++ new ∧
      ∀ e ∈ new, BusOp.pageConfined e := by
  unfold writeAt
  split
  · exact Issued.none _ _
  · split
    · exact writeChunk_issued s _ _ _
    · exact writeLoop_issued _ _ _ _ _ _

/-! ## Single-page write result -/

/-- Claim C19. Single-page write result: for every address, count and starting state (cursor
`c`, shadow `e`), `writeSinglePage` returns 0 exactly when `n = 0`, `n > 128` or the bus write
fails, and returns `n` otherwise; when it rejects `n` the whole state, the log of bus
operations included, is unchanged; when the bus write fails the cursor stays `c` and the shadow
becomes `0xffffffff`; when it returns `n` the cursor is `c + n` and the shadow `e + n`, both
modulo 2^32. -/
theorem writeSinglePage_result (s : State) (a : Nat) (d : Nat → Nat) (n : Nat) :
    ((writeSinglePage s a d n).1 = 0 ↔ (n = 0 ∨ n > 128 ∨ s.I2c16.errs.headD 0 ≠ 0)) ∧
    (¬ (n = 0 ∨ n > 128 ∨ s.I2c16.errs.headD 0 ≠ 0) → (writeSinglePage s a d n).1 = n) ∧
    (n = 0 ∨ n > 128 → (writeSinglePage s a d n).2 = s) ∧
    (¬ (n = 0 ∨ n > 128) → s.I2c16.errs.headD 0 ≠ 0 →
      (writeSinglePage s a d n).2.curpos = s.curpos ∧
        (writeSinglePage s a d n).2.eeprom_pos = 0xffffffff) ∧
    ((writeSinglePage s a d n).1 = n → n ≠ 0 →
      (writeSinglePage s a d n).2.curpos = (s.curpos + n) % 4294967296 ∧
        (writeSinglePage s a d n).2.eeprom_pos = (s.eeprom_pos + n) % 4294967296) := by
  by_cases h0 : n = 0 ∨ n > 128
  · have hr : writeSinglePage s a d n = (0, s) := by
      unfold writeSinglePage
      rw [if_pos h0]
    rw [hr]
    refine ⟨?_, ?_, ?_, ?_, ?_⟩
    · simp only [true_iff]
      rcases h0 with h | h
      · exact Or.inl h
      · exact Or.inr (Or.inl h)
    · intro h
      exact absurd (by rcases h0 with h' | h'; exact Or.inl h'; exact Or.inr (Or.inl h')) h
    · intro _; rfl
    · intro h; exact absurd h0 h
    · intro h hn
      exact absurd h.symm (by simpa using hn)
  · by_cases he : s.I2c16.errs.headD 0 = 0
    · have hr : writeSinglePage s a d n =
          (n, { s with eeprom_pos := u32 (s.eeprom_pos + n), curpos := u32 (s.curpos + n),
                       I2c16 := (s.I2c16.write (u8 (s.devaddr ||| (BLOCKNUM a <<< 2)))
                         (TO_PAGEADDR a) d n).2.waitReady
                           (u8 (s.devaddr ||| (BLOCKNUM a <<< 2))) }) := by
        unfold writeSinglePage
        rw [if_neg h0]
        simp only [I2C.write, he, if_true, ne_eq, not_true_eq_false, if_false]
      rw [hr]
      refine ⟨?_, ?_, ?_, ?_, ?_⟩
      · constructor
        · intro h; simp only at h; omega
        · intro h
          rcases h with h | h | h
          · omega
          · omega
          · exact absurd he h
      · intro _; rfl
      · intro h; exact absurd h h0
      · intro _ h; exact absurd he h
      · intro _ _
        exact ⟨rfl, rfl⟩
    · have hr : writeSinglePage s a d n =
          (0, { s with eeprom_pos := 0xffffffff,
                       I2c16 := (s.I2c16.write (u8 (s.devaddr ||| (BLOCKNUM a <<< 2)))
                         (TO_PAGEADDR a) d n).2 }) := by
        unfold writeSinglePage
        rw [if_neg h0]
        simp only [I2C.write, he, if_false, ne_eq, not_false_eq_true, if_true]
      rw [hr]
      refine ⟨?_, ?_, ?_, ?_, ?_⟩
      · simp only [true_iff]
        exact Or.inr (Or.inr he)
      · intro h
        exact absurd (Or.inr (Or.inr he)) h
      · intro h; exact absurd h h0
      · intro _ _
        exact ⟨rfl, rfl⟩
      · intro h hn
        simp only at h
        omega

theorem writeSinglePage_result_witness :
    (writeSinglePage (driverAt 5 0xffffffff []) 120 sampleBuf 8).2.curpos = 13 ∧
      (writeSinglePage (driverAt 5 0xffffffff []) 120 sampleBuf 8).2.eeprom_pos = 7 :=
  (writeSinglePage_result (driverAt 5 0xffffffff []) 120 sampleBuf 8).2.2.2.2
    (by decide) (by decide)

/-! ## Single-unit read -/

theorem receive_keeps_log (b : I2C) : b.receive.2.log = b.log := by
  unfold I2C.receive
  split <;> rfl

/-- The driver fields and the log after `read()`, with the steps of the method carried out. -/
theorem read_fields (s : State) :
    (read s).2.curpos = (if u32 (s.curpos + 1) > 131071 then 0 else u32 (s.curpos + 1)) ∧
    (read s).2.eeprom_pos =
      (if u32 (s.curpos + 1) > 131071 then 0xffffffff
        else if u32 (s.curpos + 1) = 65536 then 0 else u32 (s.curpos + 1)) ∧
    (read s).2.I2c16.log =
      (if s.eeprom_pos ≠ s.curpos then
        (s.I2c16.readBuffered (u8 (s.devaddr ||| (BLOCKNUM s.curpos <<< 2)))
          (TO_PAGEADDR s.curpos) 1).2.log
      else (s.I2c16.readNext (u8 (s.devaddr ||| (BLOCKNUM s.curpos <<< 2))) 1).2.log) := by
  unfold read
  by_cases he : s.eeprom_pos = s.curpos
  · by_cases h1 : u32 (s.curpos + 1) = 65536
    · have h2 : ¬ 65536 > 131071 := by omega
      simp [he, h1, h2, receive_keeps_log]
    · by_cases h2 : u32 (s.curpos + 1) > 131071
      · simp [he, h1, h2, receive_keeps_log]
      · simp [he, h1, h2, receive_keeps_log]
  · by_cases h1 : u32 (s.curpos + 1) = 65536
    · have h2 : ¬ 65536 > 131071 := by omega
      simp [he, h1, h2, receive_keeps_log]
    · by_cases h2 : u32 (s.curpos + 1) > 131071
      · simp [he, h1, h2, receive_keeps_log]
      · simp [he, h1, h2, receive_keeps_log]

/-- Claim C13. Single-unit read: for every state with cursor `c < 131072`, `read()` logs one
bus read, the address-less one exactly when `eeprom_pos == c` and otherwise an addressed read
with the selector of block `c div 65536` at relative address `c mod 65536`; afterwards the
cursor is `(c + 1) mod 131072` and the shadow pointer is `0xffffffff` if `c + 1 = 131072`, 0 if
`c + 1 = 65536`, and `c + 1` otherwise. -/
theorem read_state_update (s : State) (hc : s.curpos < 131072) :
    (read s).2.I2c16.log = s.I2c16.log ++
      [if s.eeprom_pos = s.curpos then
        BusOp.readNext (u8 (s.devaddr ||| ((s.curpos / 65536) <<< 2))) 1 (s.I2c16.errs.headD 0)
      else
        BusOp.read (u8 (s.devaddr ||| ((s.curpos / 65536) <<< 2))) (s.curpos % 65536) 1
          (s.I2c16.errs.headD 0)] ∧
    (BaseOk s → selBlock (u8 (s.devaddr ||| ((s.curpos / 65536) <<< 2))) = s.curpos / 65536) ∧
    (read s).2.curpos = (s.curpos + 1) % 131072 ∧
    (read s).2.eeprom_pos =
      if s.curpos + 1 = 131072 then 0xffffffff
      else if s.curpos + 1 = 65536 then 0 else s.curpos + 1 := by
  have hblk : BLOCKNUM s.curpos = s.curpos / 65536 := by rw [BLOCKNUM_eq]; omega
  have hu : u32 (s.curpos + 1) = s.curpos + 1 := by simp only [u32]; omega
  obtain ⟨fc, fe, fl⟩ := read_fields s
  refine ⟨?_, ?_, ?_, ?_⟩
  · rw [fl, hblk, TO_PAGEADDR_eq]
    by_cases he : s.eeprom_pos = s.curpos
    · rw [if_neg (by simpa using he), if_pos he]
      unfold I2C.readNext
      by_cases hz : s.I2c16.errs.headD 0 = 0
      · simp only [hz, if_true]
      · simp only [hz, if_false]
    · rw [if_pos he, if_neg he]
      unfold I2C.readBuffered
      by_cases hz : s.I2c16.errs.headD 0 = 0
      · simp only [hz, if_true]
      · simp only [hz, if_false]
  · intro hb
    exact selBlock_dev _ _ hb (by omega)
  · rw [fc, hu]
    split <;> omega
  · rw [fe, hu]
    by_cases h2 : s.curpos + 1 = 131072
    · rw [if_pos (by omega), if_pos h2]
    · rw [if_neg (by omega), if_neg h2]

theorem read_state_update_witness :
    (read (driverAt 65535 7 [])).2.I2c16.log = [BusOp.read 80 65535 1 0] ∧
    (BaseOk (driverAt 65535 7 []) → selBlock 80 = 0) ∧
    (read (driverAt 65535 7 [])).2.curpos = 65536 ∧
    (read (driverAt 65535 7 [])).2.eeprom_pos = 0 :=
  read_state_update (driverAt 65535 7 []) (by decide)

/-! ## Rejected reads -/

theorem readChunk_rejects (s : State) (a n : Nat) (h : n = 0 ∨ 131072 ≤ a) :
    readChunk s a n = (0, [], s) := by
  unfold readChunk
  rw [if_pos (by omega)]

theorem readLoop_rejects (a N : Nat) (s : State) (ha : u32 a > 131071) :
    ∀ (fuel : Nat) (out : List Nat), readLoop a N fuel s 0 out = (0, out, s) := by
  intro fuel
  induction fuel with
  | zero => intro out; rfl
  | succ fuel ih =>
    intro out
    unfold readLoop
    have hr : readChunk s (u32 (a + 0)) (u8 (min 240 (sub32 N 0))) = (0, [], s) :=
      readChunk_rejects s _ _ (Or.inr (by simpa using ha))
    simp only [hr, List.append_nil]
    split
    · split
      · simpa [u32] using ih out
      · rfl
    · rfl

/-- Claim C12. Read rejection: for every starting state and 32-bit address, `read(addr, buf,
n)` with `n = 0` or `addr ≥ 131072` returns 0, delivers nothing and leaves the whole state
unchanged (cursor, shadow pointer and the log of bus operations), and so does `readChunk` for
`n ≤ 255`. -/
theorem read_rejects (s : State) (a n : Nat) (ha : a < 4294967296)
    (h : n = 0 ∨ 131072 ≤ a) :
    readAt s a n = (0, [], s) ∧ (n ≤ 255 → readChunk s a n = (0, [], s)) := by
  refine ⟨?_, fun _ => readChunk_rejects s a n h⟩
  unfold readAt
  by_cases h0 : n = 0
  · rw [if_pos h0]
  · rw [if_neg h0]
    have ha' : 131072 ≤ a := by omega
    by_cases h1 : n ≤ 255
    · rw [if_pos h1]
      exact readChunk_rejects s a _ (Or.inr ha')
    · rw [if_neg h1]
      exact readLoop_rejects a _ s (by simp only [u32]; omega) _ []

theorem read_rejects_witness :
    readAt (driverAt 9 9 [1]) 131072 300 = (0, [], driverAt 9 9 [1]) ∧
      (300 ≤ 255 → readChunk (driverAt 9 9 [1]) 131072 300 = (0, [], driverAt 9 9 [1])) :=
  read_rejects (driverAt 9 9 [1]) 131072 300 (by decide) (Or.inr (by decide))

/-! ## Straddling read with a failure -/

/-- Claim C18, as amended. Straddling read with a failure: for every `addr < 65536` and
`n ≤ 255` with `addr + n > 65536` and every starting cursor `c`: if the first sub-read fails
`readChunk` returns 0 with the cursor still `c`; if the first succeeds and the second fails it
returns `65536 - addr`, the cursor is `c + (65536 - addr)` modulo 2^32, and the units delivered
are those of the block-0 read (the device units at `addr ..` when the base selector has its
block bit clear); in both cases the shadow pointer is `0xffffffff` afterwards. -/
theorem readChunk_straddle_failure (s : State) (a n : Nat)
    (ha : a < 65536) (hn : n ≤ 255) (hx : a + n > 65536) :
    (s.I2c16.errs.headD 0 ≠ 0 →
      (readChunk s a n).1 = 0 ∧ (readChunk s a n).2.2.curpos = s.curpos ∧
        (readChunk s a n).2.2.eeprom_pos = 0xffffffff) ∧
    (s.I2c16.errs.headD 0 = 0 → s.I2c16.errs.tail.headD 0 ≠ 0 →
      (readChunk s a n).1 = 65536 - a ∧
        (readChunk s a n).2.2.curpos = (s.curpos + (65536 - a)) % 4294967296 ∧
        (readChunk s a n).2.1 = s.I2c16.load (u8 s.devaddr) a (65536 - a) ∧
        (BaseOk s → (readChunk s a n).2.1 = memList s.I2c16.mem a (65536 - a)) ∧
        (readChunk s a n).2.2.eeprom_pos = 0xffffffff) := by
  have h0 : ¬ (n = 0 ∨ a > 131071) := by omega
  have hc : (if u32 (a + n) > 131071 then u8 (sub32 131072 a) else n) = n := by
    simp only [u32, sub32, u8]
    split <;> omega
  have hs : a < 65536 ∧ u32 (a + n) > 65536 := by simp only [u32]; omega
  have h1 : u16 a = a := by simp only [u16]; omega
  have h2 : sub32 65536 a = 65536 - a := by simp only [sub32, u32]; omega
  have h3 : u8 (65536 - a) = 65536 - a := by simp only [u8]; omega
  constructor
  · intro he
    unfold readChunk
    simp only [if_neg h0, hc, if_pos hs, I2C.read, he, if_false, ne_eq, not_false_eq_true,
      if_true, and_self]
  · intro he1 he2
    have hr : readChunk s a n =
        (65536 - a, s.I2c16.load (u8 s.devaddr) a (65536 - a),
          { s with eeprom_pos := 0xffffffff, curpos := u32 (s.curpos + (65536 - a)),
                   I2c16 := ((s.I2c16.read (u8 s.devaddr) a (65536 - a)).2.2.read
                     (u8 (s.devaddr ||| (1 <<< 2))) 0
                     (u8 (sub32 n (65536 - a)))).2.2 }) := by
      unfold readChunk
      simp only [if_neg h0, hc, if_pos hs, h1, h2, h3, I2C.read, he1, he2, if_true, if_false,
        ne_eq, not_true_eq_false, not_false_eq_true]
    rw [hr]
    refine ⟨rfl, rfl, rfl, ?_, rfl⟩
    intro hb
    have hsel0 : selBlock (u8 s.devaddr) = 0 := by
      have h := selBlock_dev s.devaddr 0 hb (by omega)
      simpa using h
    simp only [load_eq_memList, hsel0, Nat.zero_mul, Nat.zero_add]

theorem readChunk_straddle_failure_witness :
    (readChunk (driverAt 40 40 [0, 3]) 65533 6).1 = 3 ∧
      (readChunk (driverAt 40 40 [0, 3]) 65533 6).2.2.curpos = 43 ∧
      (readChunk (driverAt 40 40 [0, 3]) 65533 6).2.1 =
        (driverAt 40 40 [0, 3]).I2c16.load 80 65533 3 ∧
      (BaseOk (driverAt 40 40 [0, 3]) →
        (readChunk (driverAt 40 40 [0, 3]) 65533 6).2.1 = memList sampleMem 65533 3) ∧
      (readChunk (driverAt 40 40 [0, 3]) 65533 6).2.2.eeprom_pos = 0xffffffff :=
  (readChunk_straddle_failure (driverAt 40 40 [0, 3]) 65533 6
    (by decide) (by decide) (by decide)).2 (by decide) (by decide)

/-- Claim C18 as stated fails where the 32-bit cursor wraps: from cursor 4294967295,
`readChunk(65533, buf, 6)` whose second sub-read fails returns 3 and leaves the cursor at 2,
not at `c + (65536 - addr) = 4294967298`. -/
theorem readChunk_straddle_cursor_wraps :
    (readChunk (driverAt 4294967295 0 [0, 1]) 65533 6).1 = 3 ∧
    (readChunk (driverAt 4294967295 0 [0, 1]) 65533 6).2.2.curpos = 2 ∧
    (readChunk (driverAt 4294967295 0 [0, 1]) 65533 6).2.2.curpos ≠
      (driverAt 4294967295 0 [0, 1]).curpos + (65536 - 65533) := by
  decide

/-! ## Write completion wait -/

theorem pollLoop_shape (dev : Nat) :
    ∀ (acks : List Bool) (log : List BusOp),
      ∃ k : Nat, (pollLoop dev acks log).2 =
        log ++ (List.replicate k (BusOp.poll dev false) ++ [BusOp.poll dev true]) := by
  intro acks
  induction acks with
  | nil => intro log; exact ⟨0, rfl⟩
  | cons x rest ih =>
    intro log
    cases x with
    | true => exact ⟨0, rfl⟩
    | false =>
      obtain ⟨k, hk⟩ := ih (log ++ [BusOp.poll dev false])
      refine ⟨k + 1, ?_⟩
      simp only [pollLoop]
      rw [hk, List.append_assoc, List.replicate_succ]
      rfl

theorem waitReady_shape (b : I2C) (dev : Nat) :
    ∃ k : Nat, (b.waitReady dev).log =
      b.log ++ (List.replicate k (BusOp.poll dev false) ++ [BusOp.poll dev true]) :=
  pollLoop_shape dev b.acks b.log

/-- Claim C15. Write completion wait: whenever `writeSinglePage` or `write(byte)` returns
success, what it added to the log is its bus write followed by acknowledge polls only, all to
the selector of the bus write (`devaddr | (block << 2)`), every one but the last answering not
ready and the last answering ready; whenever the bus write fails the call returns failure (0 or
false) and the failed bus write is all it added to the log. -/
theorem write_completion_wait (s : State) (a : Nat) (d : Nat → Nat) (n v : Nat) :
    ((writeSinglePage s a d n).1 ≠ 0 →
      ∃ k : Nat, (writeSinglePage s a d n).2.I2c16.log =
        s.I2c16.log ++
          (BusOp.write (u8 (s.devaddr ||| (BLOCKNUM a <<< 2))) (TO_PAGEADDR a) (bufTake d n) 0 ::
            (List.replicate k (BusOp.poll (u8 (s.devaddr ||| (BLOCKNUM a <<< 2))) false) ++
              [BusOp.poll (u8 (s.devaddr ||| (BLOCKNUM a <<< 2))) true]))) ∧
    (¬ (n = 0 ∨ n > 128) → s.I2c16.errs.headD 0 ≠ 0 →
      (writeSinglePage s a d n).1 = 0 ∧
        (writeSinglePage s a d n).2.I2c16.log =
          s.I2c16.log ++
            [BusOp.write (u8 (s.devaddr ||| (BLOCKNUM a <<< 2))) (TO_PAGEADDR a) (bufTake d n)
              (s.I2c16.errs.headD 0)]) ∧
    ((writeByte s v).1 = true →
      ∃ k : Nat, (writeByte s v).2.I2c16.log =
        s.I2c16.log ++
          (BusOp.write (u8 (s.devaddr ||| (u8 (BLOCKNUM s.curpos) <<< 2)))
              (TO_PAGEADDR s.curpos) [v] 0 ::
            (List.replicate k
                (BusOp.poll (u8 (s.devaddr ||| (u8 (BLOCKNUM s.curpos) <<< 2))) false) ++
              [BusOp.poll (u8 (s.devaddr ||| (u8 (BLOCKNUM s.curpos) <<< 2))) true]))) ∧
    (s.I2c16.errs.headD 0 ≠ 0 →
      (writeByte s v).1 = false ∧
        (writeByte s v).2.I2c16.log =
          s.I2c16.log ++
            [BusOp.write (u8 (s.devaddr ||| (u8 (BLOCKNUM s.curpos) <<< 2)))
              (TO_PAGEADDR s.curpos) [v] (s.I2c16.errs.headD 0)]) := by
  refine ⟨?_, ?_, ?_, ?_⟩
  · intro hr
    by_cases h0 : n = 0 ∨ n > 128
    · exfalso
      apply hr
      unfold writeSinglePage
      rw [if_pos h0]
    · by_cases he : s.I2c16.errs.headD 0 = 0
      · unfold writeSinglePage
        rw [if_neg h0]
        simp only [I2C.write, he, if_true, ne_eq, not_true_eq_false, if_false]
        obtain ⟨k, hk⟩ := waitReady_shape
          { s.I2c16 with
            mem := store s.I2c16.mem
              (selBlock (u8 (s.devaddr ||| (BLOCKNUM a <<< 2))) * 65536 + TO_PAGEADDR a) d n,
            ptr := (TO_PAGEADDR a + n) % 65536, errs := s.I2c16.errs.tail,
            log := s.I2c16.log ++
              [BusOp.write (u8 (s.devaddr ||| (BLOCKNUM a <<< 2))) (TO_PAGEADDR a)
                (bufTake d n) 0] }
          (u8 (s.devaddr ||| (BLOCKNUM a <<< 2)))
        refine ⟨k, ?_⟩
        rw [hk, List.append_assoc]
        rfl
      · exfalso
        apply hr
        unfold writeSinglePage
        rw [if_neg h0]
        simp only [I2C.write, he, if_false, ne_eq, not_false_eq_true, if_true]
  · intro h0 he
    unfold writeSinglePage
    rw [if_neg h0]
    simp only [I2C.write, he, if_false, ne_eq, not_false_eq_true, if_true, and_self]
  · intro hr
    by_cases he : s.I2c16.errs.headD 0 = 0
    · have hbus : (writeByte s v).2.I2c16 =
          (s.I2c16.write (u8 (s.devaddr ||| (u8 (BLOCKNUM s.curpos) <<< 2)))
            (TO_PAGEADDR s.curpos) (fun _ => v) 1).2.waitReady
              (u8 (s.devaddr ||| (u8 (BLOCKNUM s.curpos) <<< 2))) := by
        unfold writeByte
        simp only [I2C.write, he, if_true, ne_eq, not_true_eq_false, if_false]
        split <;> rfl
      obtain ⟨k, hk⟩ := waitReady_shape
        (s.I2c16.write (u8 (s.devaddr ||| (u8 (BLOCKNUM s.curpos) <<< 2)))
          (TO_PAGEADDR s.curpos) (fun _ => v) 1).2
        (u8 (s.devaddr ||| (u8 (BLOCKNUM s.curpos) <<< 2)))
      refine ⟨k, ?_⟩
      rw [hbus, hk]
      simp only [I2C.write, he, if_true, List.append_assoc]
      rfl
    · exfalso
      revert hr
      unfold writeByte
      simp only [I2C.write, he, if_false, ne_eq, not_false_eq_true, if_true]
      simp
  · intro he
    unfold writeByte
    simp only [I2C.write, he, if_false, ne_eq, not_false_eq_true, if_true, true_and]
    rfl

theorem write_completion_wait_witness :
    ∃ k : Nat,
      (writeSinglePage (initState 0x50 (freshBus sampleMem [] [false, false])) 120 sampleBuf
        8).2.I2c16.log =
      BusOp.write 80 120 (bufTake sampleBuf 8) 0 ::
        (List.replicate k (BusOp.poll 80 false) ++ [BusOp.poll 80 true]) :=
  (write_completion_wait (initState 0x50 (freshBus sampleMem [] [false, false])) 120 sampleBuf
    8 0).1 (by decide)

/-! ## Nothing is attempted after a failure -/

theorem stops_of_clean {l : List BusOp} (h : ∀ e ∈ l, e.failed = false) : StopsAtFailure l := by
  intro pre e post hl he
  have hmem : e ∈ l := by rw [hl]; simp
  rw [h e hmem] at he
  exact absurd he (by decide)

theorem stops_single (e : BusOp) : StopsAtFailure [e] := by
  intro pre e' post hl _
  cases pre with
  | nil =>
    simp only [List.nil_append, List.cons.injEq] at hl
    exact hl.2.symm
  | cons x rest =>
    simp only [List.cons_append, List.cons.injEq] at hl
    have := hl.2
    cases rest <;> simp at this

theorem stops_append {c t : List BusOp} (hc : ∀ e ∈ c, e.failed = false)
    (ht : StopsAtFailure t) : StopsAtFailure (c ++ t) := by
  intro pre e post hl he
  rcases List.append_eq_append_iff.mp hl with ⟨a', h1, h2⟩ | ⟨c', h1, h2⟩
  · exact ht a' e post h2 he
  · cases c' with
    | nil =>
      simp only [List.nil_append] at h2
      exact ht [] e post (by simpa using h2.symm) he
    | cons x rest =>
      simp only [List.cons_append, List.cons.injEq] at h2
      have hmem : e ∈ c := by rw [h1, ← h2.1]; simp
      rw [hc e hmem] at he
      exact absurd he (by decide)

theorem Attempt.idle (ok : Prop) (s : State) : Attempt ok s s :=
  ⟨[], by simp, stops_of_clean (by simp), by simp⟩

theorem Attempt.weaken {ok : Prop} {s s' : State} (h : Attempt ok s s') : Attempt False s s' := by
  obtain ⟨new, hl, hs, _⟩ := h
  exact ⟨new, hl, hs, fun hf => absurd hf id⟩

theorem Attempt.next {ok1 ok2 : Prop} {s s1 s2 : State}
    (h1 : Attempt ok1 s s1) (hok : ok1) (h2 : Attempt ok2 s1 s2) : Attempt ok2 s s2 := by
  obtain ⟨n1, l1, _, c1⟩ := h1
  obtain ⟨n2, l2, s2', c2⟩ := h2
  refine ⟨n1 ++ n2, ?_, stops_append (c1 hok) s2', ?_⟩
  · rw [l2, l1, List.append_assoc]
  · intro h e he
    rcases List.mem_append.mp he with hm | hm
    · exact c1 hok e hm
    · exact c2 h e hm

theorem writeSinglePage_attempt (s : State) (a : Nat) (d : Nat → Nat) (n : Nat) :
    Attempt ((writeSinglePage s a d n).1 ≠ 0) s (writeSinglePage s a d n).2 := by
  by_cases h0 : n = 0 ∨ n > 128
  · have hr : writeSinglePage s a d n = (0, s) := by
      unfold writeSinglePage
      rw [if_pos h0]
    rw [hr]
    exact Attempt.idle _ _
  · by_cases he : s.I2c16.errs.headD 0 = 0
    · unfold writeSinglePage
      rw [if_neg h0]
      simp only [I2C.write, he, if_true, ne_eq, not_true_eq_false, if_false]
      obtain ⟨new, hl, hpoll⟩ := pollLoop_log (u8 (s.devaddr ||| (BLOCKNUM a <<< 2)))
        s.I2c16.acks (s.I2c16.log ++
          [BusOp.write (u8 (s.devaddr ||| (BLOCKNUM a <<< 2))) (TO_PAGEADDR a) (bufTake d n) 0])
      have hclean : ∀ e ∈ BusOp.write (u8 (s.devaddr ||| (BLOCKNUM a <<< 2))) (TO_PAGEADDR a)
          (bufTake d n) 0 :: new, e.failed = false := by
        intro e hmem
        rcases List.mem_cons.mp hmem with h | h
        · rw [h]; rfl
        · obtain ⟨r, hr⟩ := hpoll e h
          rw [hr]; rfl
      refine ⟨_, ?_, stops_of_clean hclean, fun _ => hclean⟩
      simp only [I2C.waitReady]
      rw [hl, List.append_assoc]
      rfl
    · unfold writeSinglePage
      rw [if_neg h0]
      simp only [I2C.write, he, if_false, ne_eq, not_false_eq_true, if_true, not_true_eq_false]
      exact ⟨_, rfl, stops_single _, fun hf => absurd hf id⟩

theorem writeChunk_attempt (s : State) (a : Nat) (d : Nat → Nat) (n : Nat) :
    Attempt ((writeChunk s a d n).1 = n) s (writeChunk s a d n).2 := by
  by_cases h0 : n = 0 ∨ n > 128 ∨ a > 131071
  · have hr : writeChunk s a d n = (0, s) := by
      unfold writeChunk
      rw [if_pos h0]
    rw [hr]
    exact Attempt.idle _ _
  · rw [writeChunk_eq s a d n (by omega) (by omega) (by omega)]
    by_cases hx : a % 128 + n ≤ 128
    · rw [if_pos hx]
      obtain ⟨new, hl, hs, hc⟩ := writeSinglePage_attempt s a d n
      exact ⟨new, hl, hs, fun h => hc (by omega)⟩
    · rw [if_neg hx]
      have a1 := writeSinglePage_attempt s a d (128 - a % 128)
      have a2 := writeSinglePage_attempt (writeSinglePage s a d (128 - a % 128)).2
        ((a + (128 - a % 128)) % 131072) (shiftBuf d (128 - a % 128)) (n - (128 - a % 128))
      simp only
      split
      · rename_i hne
        obtain ⟨new, hl, hs, hc⟩ := a1
        refine ⟨new, hl, hs, fun h => hc ?_⟩
        have c := (writeSinglePage_count s a d (128 - a % 128) (by omega) (by omega))
        by_cases he : s.I2c16.errs.headD 0 = 0
        · exact absurd (c.1 he) hne
        · have := c.2 he
          omega
      · rename_i heq
        have hok1 : (writeSinglePage s a d (128 - a % 128)).1 ≠ 0 := by
          have : (writeSinglePage s a d (128 - a % 128)).1 = 128 - a % 128 := by
            simpa using heq
          omega
        split
        · rename_i hne2
          obtain ⟨new, hl, hs, hc⟩ := Attempt.next a1 hok1 a2
          refine ⟨new, hl, hs, fun h => hc ?_⟩
          have c := (writeSinglePage_count (writeSinglePage s a d (128 - a % 128)).2
            ((a + (128 - a % 128)) % 131072) (shiftBuf d (128 - a % 128))
            (n - (128 - a % 128)) (by omega) (by omega))
          by_cases he : (writeSinglePage s a d (128 - a % 128)).2.I2c16.errs.headD 0 = 0
          · exact absurd (c.1 he) hne2
          · have := c.2 he
            omega
        · rename_i heq2
          have hok2 : (writeSinglePage (writeSinglePage s a d (128 - a % 128)).2
              ((a + (128 - a % 128)) % 131072) (shiftBuf d (128 - a % 128))
              (n - (128 - a % 128))).1 ≠ 0 := by
            have : (writeSinglePage (writeSinglePage s a d (128 - a % 128)).2
              ((a + (128 - a % 128)) % 131072) (shiftBuf d (128 - a % 128))
              (n - (128 - a % 128))).1 = n - (128 - a % 128) := by
              simpa using heq2
            omega
          obtain ⟨new, hl, hs, hc⟩ := Attempt.next a1 hok1 a2
          exact ⟨new, hl, hs, fun _ => hc hok2⟩

theorem writeLoop_attempt (a : Nat) (d : Nat → Nat) (N : Nat) :
    ∀ (fuel : Nat) (s : State) (w : Nat), Attempt False s (writeLoop a d N fuel s w).2 := by
  intro fuel
  induction fuel with
  | zero =>
    intro s w
    exact Attempt.idle _ _
  | succ fuel ih =>
    intro s w
    unfold writeLoop
    split
    · simp only
      have hu : u8 (min 128 (sub32 N w)) = min 128 (sub32 N w) := by
        simp only [u8]; omega
      have ac := writeChunk_attempt s (u32 (a + w)) (shiftBuf d w) (u8 (min 128 (sub32 N w)))
      split
      · rename_i heq
        exact Attempt.next ac (heq.trans hu.symm) (ih _ _)
      · exact ac.weaken
    · exact Attempt.idle _ _

theorem writeAt_attempt (s : State) (a : Nat) (d : Nat → Nat) (n : Nat) :
    Attempt False s (writeAt s a d n).2 := by
  unfold writeAt
  split
  · exact Attempt.idle _ _
  · split
    · exact (writeChunk_attempt s _ _ _).weaken
    · exact writeLoop_attempt _ _ _ _ _ _

/-! ## The chunk reader, with its arithmetic carried out -/

/-- `readChunk` on an accepted request, with the address arithmetic carried out. -/
theorem readChunk_eq (s : State) (a n : Nat) (hn1 : 1 ≤ n) (hn : n ≤ 255) (ha : a ≤ 131071) :
    readChunk s a n =
      if a < 65536 ∧ a + min n (131072 - a) > 65536 then
        let r1 := s.I2c16.read (u8 s.devaddr) a (65536 - a)
        if r1.1 ≠ 0 then
          (0, [], { s with eeprom_pos := 0xffffffff, I2c16 := r1.2.2 })
        else
          let r2 := r1.2.2.read (u8 (s.devaddr ||| (1 <<< 2))) 0
            (min n (131072 - a) - (65536 - a))
          if r2.1 ≠ 0 then
            (65536 - a, r1.2.1,
              { s with eeprom_pos := 0xffffffff,
                       curpos := u32 (s.curpos + (65536 - a)), I2c16 := r2.2.2 })
          else
            (min n (131072 - a), r1.2.1 ++ r2.2.1,
              { s with eeprom_pos := a + min n (131072 - a),
                       curpos := u32 (s.curpos + min n (131072 - a)), I2c16 := r2.2.2 })
      else
        let r := s.I2c16.read (u8 (s.devaddr ||| ((a / 65536) <<< 2))) (a % 65536)
          (min n (131072 - a))
        if r.1 ≠ 0 then
          (0, [], { s with eeprom_pos := 0xffffffff, I2c16 := r.2.2 })
        else
          (min n (131072 - a), r.2.1,
            { s with eeprom_pos := u32 (s.eeprom_pos + min n (131072 - a)),
                     curpos := u32 (s.curpos + min n (131072 - a)), I2c16 := r.2.2 }) := by
  have h0 : ¬ (n = 0 ∨ a > 131071) := by omega
  have hc : (if u32 (a + n) > 131071 then u8 (sub32 131072 a) else n) = min n (131072 - a) := by
    simp only [u32, sub32, u8]
    split <;> omega
  have hu : u32 (a + min n (131072 - a)) = a + min n (131072 - a) := by
    simp only [u32]; omega
  have hblk : u8 (BLOCKNUM a) = a / 65536 := by
    rw [BLOCKNUM_eq]; simp only [u8]; omega
  unfold readChunk
  rw [if_neg h0]
  simp only [hc, hu, hblk, TO_PAGEADDR_eq]
  by_cases hx : a < 65536 ∧ a + min n (131072 - a) > 65536
  · rw [if_pos hx, if_pos hx]
    have h1 : u16 a = a := by simp only [u16]; omega
    have h2 : sub32 65536 a = 65536 - a := by simp only [sub32, u32]; omega
    have h3 : u8 (65536 - a) = 65536 - a := by simp only [u8]; omega
    have h4 : sub32 (min n (131072 - a)) (65536 - a) = min n (131072 - a) - (65536 - a) := by
      simp only [sub32, u32]; omega
    have h5 : u8 (min n (131072 - a) - (65536 - a)) = min n (131072 - a) - (65536 - a) := by
      simp only [u8]; omega
    have h6 : TO_FULLADDR 1 (min n (131072 - a) - (65536 - a)) = a + min n (131072 - a) := by
      rw [TO_FULLADDR_eq _ _ (by omega) (by omega)]
      omega
    simp only [h1, h2, h3, h4, h5, h6]
  · rw [if_neg hx, if_neg hx]

theorem I2C.read_outcome (b : I2C) (dev addr count : Nat) :
    (b.read dev addr count).1 = b.errs.headD 0 ∧
      (b.read dev addr count).2.2.log =
        b.log ++ [BusOp.read dev addr count (b.errs.headD 0)] ∧
      (b.read dev addr count).2.2.errs = b.errs.tail := by
  unfold I2C.read
  by_cases he : b.errs.headD 0 = 0
  · simp only [he, if_true, and_self]
  · simp only [he, if_false, and_self]

/-- The count returned by `readChunk` and the bus reads it logs, for an accepted request. -/
theorem readChunk_log (s : State) (a n : Nat) (hn1 : 1 ≤ n) (hn : n ≤ 255) (ha : a ≤ 131071) :
    (readChunk s a n).1 =
      (if a < 65536 ∧ a + min n (131072 - a) > 65536 then
        if s.I2c16.errs.headD 0 ≠ 0 then 0
        else if s.I2c16.errs.tail.headD 0 ≠ 0 then 65536 - a else min n (131072 - a)
      else if s.I2c16.errs.headD 0 ≠ 0 then 0 else min n (131072 - a)) ∧
    (readChunk s a n).2.2.I2c16.log = s.I2c16.log ++
      (if a < 65536 ∧ a + min n (131072 - a) > 65536 then
        if s.I2c16.errs.headD 0 ≠ 0 then
          [BusOp.read (u8 s.devaddr) a (65536 - a) (s.I2c16.errs.headD 0)]
        else
          [BusOp.read (u8 s.devaddr) a (65536 - a) 0,
           BusOp.read (u8 (s.devaddr ||| (1 <<< 2))) 0 (min n (131072 - a) - (65536 - a))
             (s.I2c16.errs.tail.headD 0)]
      else
        [BusOp.read (u8 (s.devaddr ||| ((a / 65536) <<< 2))) (a % 65536) (min n (131072 - a))
          (s.I2c16.errs.headD 0)]) ∧
    (readChunk s a n).2.2.devaddr = s.devaddr := by
  rw [readChunk_eq s a n hn1 hn ha]
  by_cases hx : a < 65536 ∧ a + min n (131072 - a) > 65536
  · simp only [if_pos hx]
    obtain ⟨o1, o2, o3⟩ := I2C.read_outcome s.I2c16 (u8 s.devaddr) a (65536 - a)
    by_cases he : s.I2c16.errs.headD 0 = 0
    · obtain ⟨p1, p2, p3⟩ := I2C.read_outcome (s.I2c16.read (u8 s.devaddr) a (65536 - a)).2.2
        (u8 (s.devaddr ||| (1 <<< 2))) 0 (min n (131072 - a) - (65536 - a))
      rw [o3] at p1
      rw [o2, o3, he] at p2
      by_cases he2 : s.I2c16.errs.tail.headD 0 = 0
      · simp only [o1, he, p1, he2, ne_eq, not_true_eq_false, if_false, p2,
          List.append_assoc, List.singleton_append, and_self]
      · simp only [o1, he, p1, he2, ne_eq, not_true_eq_false, not_false_eq_true, if_false,
          if_true, p2, List.append_assoc, List.singleton_append, and_self]
    · simp only [o1, he, ne_eq, not_false_eq_true, if_true, o2, and_self]
  · simp only [if_neg hx]
    obtain ⟨o1, o2, _⟩ := I2C.read_outcome s.I2c16 (u8 (s.devaddr ||| ((a / 65536) <<< 2)))
      (a % 65536) (min n (131072 - a))
    by_cases he : s.I2c16.errs.headD 0 = 0
    · simp only [o1, he, ne_eq, not_true_eq_false, if_false, o2, and_self]
    · simp only [o1, he, ne_eq, not_false_eq_true, if_true, o2, and_self]

/-! ## Reads stop at the first failure -/

theorem readChunk_attempt (s : State) (a n : Nat) (hn : n ≤ 255) :
    Attempt ((readChunk s a n).1 = n) s (readChunk s a n).2.2 := by
  by_cases h0 : n = 0 ∨ 131072 ≤ a
  · rw [readChunk_rejects s a n h0]
    exact Attempt.idle _ _
  · obtain ⟨hv, hl, _⟩ := readChunk_log s a n (by omega) hn (by omega)
    refine ⟨_, hl, ?_, ?_⟩
    · by_cases hx : a < 65536 ∧ a + min n (131072 - a) > 65536
      · rw [if_pos hx]
        by_cases he : s.I2c16.errs.headD 0 = 0
        · rw [if_neg (by simpa using he)]
          exact stops_append (c := [BusOp.read (u8 s.devaddr) a (65536 - a) 0])
            (by intro e hm; rw [List.mem_singleton.mp hm]; rfl) (stops_single _)
        · rw [if_pos he]
          exact stops_single _
      · rw [if_neg hx]
        exact stops_single _
    · intro hok
      rw [hv] at hok
      by_cases hx : a < 65536 ∧ a + min n (131072 - a) > 65536
      · rw [if_pos hx] at hok ⊢
        by_cases he : s.I2c16.errs.headD 0 = 0
        · rw [if_neg (by simpa using he)] at hok ⊢
          by_cases he2 : s.I2c16.errs.tail.headD 0 = 0
          · intro e hm
            simp only [List.mem_cons, List.mem_singleton, List.not_mem_nil, or_false] at hm
            rcases hm with h | h
            · rw [h]; rfl
            · rw [h, he2]; rfl
          · rw [if_pos he2] at hok
            omega
        · rw [if_pos he] at hok
          omega
      · rw [if_neg hx] at hok ⊢
        by_cases he : s.I2c16.errs.headD 0 = 0
        · intro e hm
          rw [List.mem_singleton.mp hm, he]
          rfl
        · rw [if_pos he] at hok
          omega

theorem readLoop_attempt (a N : Nat) :
    ∀ (fuel : Nat) (s : State) (r : Nat) (out : List Nat),
      Attempt False s (readLoop a N fuel s r out).2.2 := by
  intro fuel
  induction fuel with
  | zero =>
    intro s r out
    exact Attempt.idle _ _
  | succ fuel ih =>
    intro s r out
    unfold readLoop
    split
    · simp only
      have hu : u8 (min 240 (sub32 N r)) = min 240 (sub32 N r) := by
        simp only [u8]; omega
      have ac := readChunk_attempt s (u32 (a + r)) (u8 (min 240 (sub32 N r)))
        (by rw [hu]; omega)
      split
      · rename_i heq
        exact Attempt.next ac (heq.trans hu.symm) (ih _ _ _)
      · exact ac.weaken
    · exact Attempt.idle _ _

theorem readAt_attempt (s : State) (a n : Nat) : Attempt False s (readAt s a n).2.2 := by
  unfold readAt
  split
  · exact Attempt.idle _ _
  · split
    · rename_i h
      exact (readChunk_attempt s _ _ (by simp only [u8]; omega)).weaken
    · exact readLoop_attempt _ _ _ _ _ _

/-- Claim C16. No attempt after the first failure: for every address, count, buffer, starting
state and bus script, among the bus operations that one call of `read(addr, buf, n)` or of
`write(addr, data, n)` adds to the log, nothing (no read, no write, no acknowledge poll)
follows a bus read or bus write that reported an error. -/
theorem no_attempt_after_failure (s : State) (a n : Nat) (d : Nat → Nat) :
    (∃ new : List BusOp, (readAt s a n).2.2.I2c16.log = s.I2c16.log ++ new ∧
      ∀ (pre : List BusOp) (e : BusOp) (post : List BusOp),
        new = pre ++ e :: post → e.failed = true → post = []) ∧
    (∃ new : List BusOp, (writeAt s a d n).2.I2c16.log = s.I2c16.log ++ new ∧
      ∀ (pre : List BusOp) (e : BusOp) (post : List BusOp),
        new = pre ++ e :: post → e.failed = true → post = []) := by
  obtain ⟨n1, l1, s1, _⟩ := readAt_attempt s a n
  obtain ⟨n2, l2, s2, _⟩ := writeAt_attempt s a d n
  exact ⟨⟨n1, l1, s1⟩, ⟨n2, l2, s2⟩⟩

/-! ## Block confinement of bus reads -/

theorem readChunk_confined (s : State) (a n : Nat) (hn : n ≤ 255) :
    Issued (BusOp.blockConfined s.devaddr) s (readChunk s a n).2.2 ∧
      (readChunk s a n).2.2.devaddr = s.devaddr := by
  by_cases h0 : n = 0 ∨ 131072 ≤ a
  · rw [readChunk_rejects s a n h0]
    exact ⟨Issued.none _ _, rfl⟩
  · obtain ⟨_, hl, hd⟩ := readChunk_log s a n (by omega) hn (by omega)
    refine ⟨⟨_, hl, ?_⟩, hd⟩
    by_cases hx : a < 65536 ∧ a + min n (131072 - a) > 65536
    · have e1 : ∀ err, BusOp.blockConfined s.devaddr
          (BusOp.read (u8 s.devaddr) a (65536 - a) err) := by
        intro err
        refine ⟨a, by omega, ?_, by omega, by omega, by omega, by omega⟩
        have hz : a / 65536 = 0 := by omega
        rw [hz]
        simp
      have e2 : ∀ err, BusOp.blockConfined s.devaddr
          (BusOp.read (u8 (s.devaddr ||| (1 <<< 2))) 0 (min n (131072 - a) - (65536 - a))
            err) := by
        intro err
        exact ⟨65536, by omega, rfl, rfl, by omega, by omega, by omega⟩
      rw [if_pos hx]
      split
      · intro e hm
        rw [List.mem_singleton.mp hm]
        exact e1 _
      · intro e hm
        simp only [List.mem_cons, List.mem_singleton, List.not_mem_nil, or_false] at hm
        rcases hm with h | h
        · rw [h]; exact e1 _
        · rw [h]; exact e2 _
    · rw [if_neg hx]
      intro e hm
      rw [List.mem_singleton.mp hm]
      exact ⟨a, by omega, rfl, rfl, by omega, by omega, by omega⟩

theorem readLoop_confined (a N : Nat) :
    ∀ (fuel : Nat) (s : State) (r : Nat) (out : List Nat),
      Issued (BusOp.blockConfined s.devaddr) s (readLoop a N fuel s r out).2.2 := by
  intro fuel
  induction fuel with
  | zero =>
    intro s r out
    exact Issued.none _ _
  | succ fuel ih =>
    intro s r out
    unfold readLoop
    split
    · simp only
      have hu : u8 (min 240 (sub32 N r)) ≤ 255 := by
        simp only [u8]; omega
      obtain ⟨ic, hd⟩ := readChunk_confined s (u32 (a + r)) (u8 (min 240 (sub32 N r))) hu
      split
      · have h := ih (readChunk s (u32 (a + r)) (u8 (min 240 (sub32 N r)))).2.2
          (u32 (r + (readChunk s (u32 (a + r)) (u8 (min 240 (sub32 N r)))).1))
          (out ++ (readChunk s (u32 (a + r)) (u8 (min 240 (sub32 N r)))).2.1)
        rw [hd] at h
        exact ic.seq h
      · exact ic
    · exact Issued.none _ _

/-- Claim C20. Block confinement of reads: for every `addr`, `n`, starting state and bus
script, every bus read that `read(addr, buf, n)` adds to the log is an addressed read of
between 1 and 255 units, sent to the selector of block `a div 65536` at relative address
`a mod 65536` for a linear address `a < 131072`, with `(a mod 65536) + count ≤ 65536`. -/
theorem read_block_confined (s : State) (a n : Nat) :
    ∃ new : List BusOp, (readAt s a n).2.2.I2c16.log = s.I2c16.log ++ new ∧
      ∀ e ∈ new, BusOp.blockConfined s.devaddr e := by
  unfold readAt
  split
  · exact Issued.none _ _
  · split
    · rename_i h
      exact (readChunk_confined s _ _ (by simp only [u8]; omega)).1
    · exact readLoop_confined _ _ _ _ _ _

/-! ## Reads without wrap-around, single-unit writes away from the block end -/

/-- A request that runs past the end of the device is the request for the units that are
left. -/
theorem readChunk_clamp (s : State) (a n : Nat) (hn1 : 1 ≤ n) (hn : n ≤ 255) (ha : a ≤ 131071) :
    readChunk s a n = readChunk s a (min n (131072 - a)) := by
  rw [readChunk_eq s a n hn1 hn ha,
    readChunk_eq s a (min n (131072 - a)) (by omega) (by omega) ha]
  have hm : min (min n (131072 - a)) (131072 - a) = min n (131072 - a) := by omega
  rw [hm]

/-- Without failure and without 32-bit wrap-around of `addr + n`, `read(addr, buf, n)` returns
`min(n, 131072 - addr)` and delivers the device units from `addr` on. -/
theorem readAt_clamped (s : State) (a n : Nat) (ha : a < 131072) (hn1 : 1 ≤ n)
    (hov : a + n < 4294967296) (hb : BaseOk s) (hf : NoFail s.I2c16) :
    (readAt s a n).1 = min n (131072 - a) ∧
      (readAt s a n).2.1 = memList s.I2c16.mem a (min n (131072 - a)) := by
  unfold readAt
  rw [if_neg (by omega)]
  by_cases h1 : n ≤ 255
  · rw [if_pos h1]
    have hu8 : u8 n = n := by simp only [u8]; omega
    rw [hu8, readChunk_clamp s a n hn1 h1 (by omega)]
    obtain ⟨e, o, _, _⟩ := readChunk_ok s a (min n (131072 - a)) (by omega) (by omega)
      (by omega) hb hf
    exact ⟨e, o⟩
  · rw [if_neg h1]
    have hclamp : (if u32 (a + n) > 131071 then sub32 131072 a else n) = min n (131072 - a) := by
      simp only [u32, sub32]
      split <;> omega
    simp only [hclamp]
    have h := readLoop_ok a (min n (131072 - a)) (by omega) (min n (131072 - a)) s 0 []
      (by omega) (by omega) hb hf
    obtain ⟨e, o, _⟩ := h
    exact ⟨e, by simpa using o⟩

/-- Away from the end of block 0, a successful `write(byte)` leaves cursor and shadow pointer
as `read()` does. -/
theorem writeByte_agrees_with_read (s : State) (v : Nat) (hc : s.curpos < 131072)
    (h : s.curpos ≠ 65535) (he : s.I2c16.errs.headD 0 = 0) :
    (writeByte s v).1 = true ∧ (writeByte s v).2.curpos = (read s).2.curpos ∧
      (writeByte s v).2.eeprom_pos = (read s).2.eeprom_pos := by
  obtain ⟨fc, fe, _⟩ := read_fields s
  have hu : u32 (s.curpos + 1) = s.curpos + 1 := by simp only [u32]; omega
  rw [fc, fe, hu]
  unfold writeByte
  simp only [I2C.write, he, if_true, ne_eq, not_true_eq_false, if_false, hu]
  by_cases h2 : s.curpos + 1 > 131071
  · simp only [h2, if_true, and_self]
  · have h3 : ¬ (s.curpos + 1 = 65536) := by omega
    simp only [h2, if_false, h3, and_self]

/-! ## Evaluations at failing inputs -/

/-- Claim C2, at a failing input. `write(131071, data, 2)` without bus failure returns 2, one
more than the single unit left before the end of the device; its bus writes start at the linear
addresses 131071 and 0, and the unit at address 0 (3 before) holds the second source unit (6)
afterwards. -/
theorem write_past_capacity_wraps :
    (writeAt (freshDriver []) 131071 sampleBuf 2).1 = 2 ∧
    (writeAt (freshDriver []) 131071 sampleBuf 2).2.I2c16.log =
      [BusOp.write 84 65535 [sampleBuf 0] 0, BusOp.poll 84 true,
       BusOp.write 80 0 [sampleBuf 1] 0, BusOp.poll 80 true] ∧
    (writeAt (freshDriver []) 131071 sampleBuf 2).2.I2c16.log.filterMap BusOp.target =
      [131071, 0] ∧
    sampleMem 0 = 3 ∧
    (writeAt (freshDriver []) 131071 sampleBuf 2).2.I2c16.mem 0 = 6 := by
  decide

set_option maxRecDepth 100000 in
/-- Claim C3, at a failing input. `write(6, data, 300)` whose fourth bus write fails returns
128, although the three bus writes before it were accepted with 250 units in all and the device
holds the first 250 source units at 6..255. -/
theorem write_short_count_after_failure :
    (writeAt (freshDriver [0, 0, 0, 1]) 6 sampleBuf 300).1 = 128 ∧
    acceptedUnits (writeAt (freshDriver [0, 0, 0, 1]) 6 sampleBuf 300).2.I2c16.log = 250 ∧
    memList (writeAt (freshDriver [0, 0, 0, 1]) 6 sampleBuf 300).2.I2c16.mem 6 250 =
      bufTake sampleBuf 250 := by
  decide

/-- Claim C4, at a failing input. A `read()` whose bus read reports error 1 leaves cursor and
shadow pointer equal (both 1), and the `read()` that follows issues the address-less bus
read. -/
theorem read_failure_not_invalidated :
    (read (freshDriver [1])).2.I2c16.log = [BusOp.read 80 0 1 1] ∧
    (read (freshDriver [1])).2.curpos = 1 ∧
    (read (freshDriver [1])).2.eeprom_pos = 1 ∧
    (read (read (freshDriver [1])).2).2.I2c16.log =
      [BusOp.read 80 0 1 1, BusOp.readNext 80 1 0] := by
  decide

/-- Claim C5, at a failing input. After `write(9)` and `read(1000, buf, 1)` from the initial
state, without any bus failure, shadow pointer and cursor are both 2 while the device's address
counter is 1001; the `read()` that follows is address-less and returns the unit stored at 1001
(98), not the unit stored at the cursor (17). -/
theorem shadow_pointer_unsound :
    (runOps [Op.writeByte 9, Op.readAt 1000 1] (freshDriver [])).eeprom_pos = 2 ∧
    (runOps [Op.writeByte 9, Op.readAt 1000 1] (freshDriver [])).curpos = 2 ∧
    (runOps [Op.writeByte 9, Op.readAt 1000 1] (freshDriver [])).I2c16.ptr = 1001 ∧
    (runOps [Op.writeByte 9, Op.readAt 1000 1] (freshDriver [])).I2c16.mem 2 = 17 ∧
    (read (runOps [Op.writeByte 9, Op.readAt 1000 1] (freshDriver []))).1 = 98 ∧
    (read (runOps [Op.writeByte 9, Op.readAt 1000 1] (freshDriver []))).2.I2c16.log =
      [BusOp.write 80 0 [9] 0, BusOp.poll 80 true, BusOp.read 80 1000 1 0,
       BusOp.readNext 80 1 0] := by
  decide

set_option maxRecDepth 100000 in
/-- Claim C6, at a failing input. `read(0, buf, 131072)` from the initial state, without any
bus failure, leaves the cursor at 131072, which is no linear address, with the shadow pointer
131072 rather than unknown; a further `read(0, buf, 255)` moves the cursor to 131327. -/
theorem cursor_leaves_range :
    (runOps [Op.readAt 0 131072] (freshDriver [])).curpos = 131072 ∧
    (runOps [Op.readAt 0 131072] (freshDriver [])).eeprom_pos = 131072 ∧
    (runOps [Op.readAt 0 131072, Op.readAt 0 255] (freshDriver [])).curpos = 131327 := by
  decide

set_option maxRecDepth 100000 in
/-- Claim C11, at a failing input. `read(1, buf, 4294967295)` without bus failure: the sum
`1 + 4294967295` wraps to 0, the count is not clamped, and the call returns 131040 although
131071 units lie between address 1 and the end of the device; the cursor has advanced by
131071 and the last bus read, 31 units at 131041 (block 1, relative address 65505), succeeded
but was not counted. -/
theorem read_overflow_short_count :
    (readAt (freshDriver []) 1 4294967295).1 = 131040 ∧
    (readAt (freshDriver []) 1 4294967295).2.2.curpos = 131071 ∧
    (readAt (freshDriver []) 1 4294967295).2.2.I2c16.log.getLast? =
      some (BusOp.read 84 65505 31 0) := by
  decide

/-- Claim C14, at a failing input. From cursor 65535 a successful `write(9)` leaves cursor and
shadow pointer both 65536, while `read()` from the same state leaves the cursor 65536 and the
shadow pointer 0. -/
theorem writeByte_shadow_at_block_end :
    (writeByte (driverAt 65535 65535 []) 9).1 = true ∧
    (writeByte (driverAt 65535 65535 []) 9).2.curpos = 65536 ∧
    (writeByte (driverAt 65535 65535 []) 9).2.eeprom_pos = 65536 ∧
    (read (driverAt 65535 65535 [])).2.curpos = 65536 ∧
    (read (driverAt 65535 65535 [])).2.eeprom_pos = 0 := by
  decide

/-- Claim C17, at a failing input. `writeChunk(120, data, 16)` whose first sub-write succeeds
(8 units, stored at 120..127) and whose second bus write fails returns 0, not 8. -/
theorem writeChunk_short_second_returns_zero :
    (writeChunk (freshDriver [0, 1]) 120 sampleBuf 16).1 = 0 ∧
    acceptedUnits (writeChunk (freshDriver [0, 1]) 120 sampleBuf 16).2.I2c16.log = 8 ∧
    (writeChunk (freshDriver [0, 1]) 120 sampleBuf 16).2.I2c16.log =
      [BusOp.write 80 120 (bufTake sampleBuf 8) 0, BusOp.poll 80 true,
       BusOp.write 80 128 (bufTake (shiftBuf sampleBuf 8) 8) 1] ∧
    memList (writeChunk (freshDriver [0, 1]) 120 sampleBuf 16).2.I2c16.mem 120 8 =
      bufTake sampleBuf 8 := by
  decide

end EEPROM
